import Mathlib

/-!
Verification of the request/response adapter layer of the Neat Pulse MCP server
(`src/client.ts` and the tool-registration file).

The development shallowly embeds:
* a JSON value model with a model of `JSON.stringify` (compact and with
  two-space indent) and of `JSON.parse` (a fuel-based recursive-descent
  parser over `List Char`);
* the `NeatPulseClient` class: configuration, headers, URL building, request
  building (method/headers/body) and response handling (status check, error
  message construction, content-type driven decoding);
* the query-string construction of the listing operations (a model of
  `URLSearchParams` including `application/x-www-form-urlencoded` escaping);
* the tool adapter: the `json`/`error` envelope helpers, the registry of
  tool operations, and the per-operation try/catch discipline, with the
  outcome of the single underlying client call supplied as an oracle value
  of type `Except String RemoteResult` (`Except.error m` models the client
  call throwing an error whose `.message` is `m`).
-/

/-- JSON value model: the structured values produced by `JSON.parse` and
consumed by `JSON.stringify` in the source.  Numbers are modelled as
integers (every number the adapter itself constructs is an integer). -/
inductive Json where
  | null
  | bool (b : Bool)
  | num (n : Int)
  | str (s : String)
  | arr (elems : List Json)
  | obj (members : List (String × Json))
deriving Repr

/-- Decimal digit character for `d < 10`. -/
def digitChar (d : Nat) : Char := Char.ofNat (48 + d)

/-- Big-endian decimal digits of `n`, with fuel (fuel `≥ n` suffices). -/
def natChars : Nat → Nat → List Char
  | _, 0 => []
  | 0, _ + 1 => []
  | fuel + 1, n + 1 => natChars fuel ((n + 1) / 10) ++ [digitChar ((n + 1) % 10)]

/-- Decimal representation of a natural number, as JavaScript `String(n)`
prints it. -/
def serNat (n : Nat) : List Char := if n = 0 then ['0'] else natChars n n

/-- Decimal representation of an integer, as JavaScript `String(i)` and
`JSON.stringify` print it. -/
def serInt (i : Int) : List Char :=
  if i < 0 then '-' :: serNat i.natAbs else serNat i.toNat

/-- Lowercase hexadecimal digit character for `d < 16`. -/
def hexChar (d : Nat) : Char :=
  if d < 10 then Char.ofNat (48 + d) else Char.ofNat (87 + d)

/-- Model of `JSON.stringify`'s QuoteJSONString escaping for one character:
the two-character escapes for quote, backslash and the named control
characters, `\u00XX` for the remaining control characters, and the
character itself otherwise. -/
def escapeChar (c : Char) : List Char :=
  if c = '"' then ['\\', '"']
  else if c = '\\' then ['\\', '\\']
  else if c = '\n' then ['\\', 'n']
  else if c = '\t' then ['\\', 't']
  else if c = '\r' then ['\\', 'r']
  else if c = '\x08' then ['\\', 'b']
  else if c = '\x0c' then ['\\', 'f']
  else if c.toNat < 32 then
    ['\\', 'u', '0', '0', hexChar (c.toNat / 16), hexChar (c.toNat % 16)]
  else [c]

/-- Quoted, escaped JSON string literal for the character list `cs`. -/
def quoteChars (cs : List Char) : List Char :=
  '"' :: (cs.map escapeChar).flatten ++ ['"']

mutual

/-- Model of `JSON.stringify(v, null, space)`'s SerializeJSONProperty:
`ind` is the current indentation, `gap` the per-level indent step
(`[]` for compact output, two spaces for `JSON.stringify(v, null, 2)`). -/
def serVal (ind gap : List Char) : Json → List Char
  | .null => "null".data
  | .bool true => "true".data
  | .bool false => "false".data
  | .num i => serInt i
  | .str s => quoteChars s.data
  | .arr [] => ['[', ']']
  | .arr (x :: xs) =>
    (if gap = [] then ['['] else '[' :: '\n' :: (ind ++ gap)) ++
      serVal (ind ++ gap) gap x ++ serElemsRest (ind ++ gap) ind gap xs
  | .obj [] => ['\x7b', '\x7d']
  | .obj (m :: ms) =>
    (if gap = [] then ['\x7b'] else '\x7b' :: '\n' :: (ind ++ gap)) ++
      quoteChars m.1.data ++ (if gap = [] then [':'] else [':', ' ']) ++
      serVal (ind ++ gap) gap m.2 ++ serMembersRest (ind ++ gap) ind gap ms

/-- Serialization of the remaining array elements after the first, including
the separators and the closing bracket (`stepback` is the indentation of the
closing bracket). -/
def serElemsRest (ind stepback gap : List Char) : List Json → List Char
  | [] => if gap = [] then [']'] else '\n' :: stepback ++ [']']
  | x :: xs =>
    (if gap = [] then [','] else ',' :: '\n' :: ind) ++
      serVal ind gap x ++ serElemsRest ind stepback gap xs

/-- Serialization of the remaining object members after the first, including
the separators and the closing brace. -/
def serMembersRest (ind stepback gap : List Char) : List (String × Json) → List Char
  | [] => if gap = [] then ['\x7d'] else '\n' :: stepback ++ ['\x7d']
  | m :: ms =>
    (if gap = [] then [','] else ',' :: '\n' :: ind) ++
      quoteChars m.1.data ++ (if gap = [] then [':'] else [':', ' ']) ++
      serVal ind gap m.2 ++ serMembersRest ind stepback gap ms

end

/-- Model of `JSON.stringify(v)` (compact, no indent). -/
def Json.stringify (v : Json) : String := String.mk (serVal [] [] v)

/-- Model of `JSON.stringify(v, null, 2)` (pretty-printed, two-space indent),
as used by the tool adapter's `json` helper. -/
def Json.stringifyPretty (v : Json) : String := String.mk (serVal [] [' ', ' '] v)

/-- JSON whitespace characters (space, tab, line feed, carriage return). -/
def isWsChar (c : Char) : Bool := c = ' ' || c = '\n' || c = '\t' || c = '\r'

/-- Drop leading JSON whitespace. -/
def skipWs : List Char → List Char
  | [] => []
  | c :: cs => if isWsChar c then skipWs cs else c :: cs

/-- Decimal digit test. -/
def isDigitChar (c : Char) : Bool := 48 ≤ c.toNat && c.toNat ≤ 57

/-- Split a maximal run of leading decimal digits from the input. -/
def takeDigits : List Char → List Char × List Char
  | [] => ([], [])
  | c :: cs =>
    if isDigitChar c then
      let p := takeDigits cs
      (c :: p.1, p.2)
    else ([], c :: cs)

/-- Numeric value of a decimal digit character. -/
def digitVal (c : Char) : Nat := c.toNat - 48

/-- Natural number denoted by a big-endian list of decimal digit characters. -/
def digitsToNat (ds : List Char) : Nat := ds.foldl (fun a c => 10 * a + digitVal c) 0

/-- Numeric value of a hexadecimal digit character, if it is one. -/
def hexVal (c : Char) : Option Nat :=
  if 48 ≤ c.toNat ∧ c.toNat ≤ 57 then some (c.toNat - 48)
  else if 97 ≤ c.toNat ∧ c.toNat ≤ 102 then some (c.toNat - 87)
  else if 65 ≤ c.toNat ∧ c.toNat ≤ 70 then some (c.toNat - 55)
  else none

/-- Parse the body of a JSON string literal (the input starts after the
opening quote); returns the decoded characters and the input after the
closing quote. -/
def parseStrBody : List Char → Option (List Char × List Char)
  | [] => none
  | c :: cs =>
    if c = '"' then some ([], cs)
    else if c = '\\' then
      match cs with
      | [] => none
      | e :: cs1 =>
        if e = '"' then (parseStrBody cs1).map (fun p => ('"' :: p.1, p.2))
        else if e = '\\' then (parseStrBody cs1).map (fun p => ('\\' :: p.1, p.2))
        else if e = '/' then (parseStrBody cs1).map (fun p => ('/' :: p.1, p.2))
        else if e = 'n' then (parseStrBody cs1).map (fun p => ('\n' :: p.1, p.2))
        else if e = 't' then (parseStrBody cs1).map (fun p => ('\t' :: p.1, p.2))
        else if e = 'r' then (parseStrBody cs1).map (fun p => ('\r' :: p.1, p.2))
        else if e = 'b' then (parseStrBody cs1).map (fun p => ('\x08' :: p.1, p.2))
        else if e = 'f' then (parseStrBody cs1).map (fun p => ('\x0c' :: p.1, p.2))
        else if e = 'u' then
          match cs1 with
          | h1 :: h2 :: h3 :: h4 :: cs2 =>
            match hexVal h1, hexVal h2, hexVal h3, hexVal h4 with
            | some a, some b, some c2, some d =>
              (parseStrBody cs2).map
                (fun p => (Char.ofNat (4096 * a + 256 * b + 16 * c2 + d) :: p.1, p.2))
            | _, _, _, _ => none
          | _ => none
        else none
    else (parseStrBody cs).map (fun p => (c :: p.1, p.2))

/-- Consume the exact character sequence `ps` from the front of the input. -/
def stripLead : List Char → List Char → Option (List Char)
  | [], cs => some cs
  | _ :: _, [] => none
  | p :: ps, c :: cs => if c = p then stripLead ps cs else none

mutual

/-- Model of `JSON.parse`: parse one JSON value after optional leading
whitespace; returns the value and the unconsumed input.  The fuel bounds
the nesting depth of arrays/objects; `length + 1` always suffices. -/
def parseVal : Nat → List Char → Option (Json × List Char)
  | 0, _ => none
  | fuel + 1, cs =>
    match skipWs cs with
    | [] => none
    | c :: cs1 =>
      if c = 'n' then (stripLead ['u', 'l', 'l'] cs1).map (fun r => (Json.null, r))
      else if c = 't' then (stripLead ['r', 'u', 'e'] cs1).map (fun r => (Json.bool true, r))
      else if c = 'f' then (stripLead ['a', 'l', 's', 'e'] cs1).map (fun r => (Json.bool false, r))
      else if c = '"' then (parseStrBody cs1).map (fun p => (Json.str (String.mk p.1), p.2))
      else if c = '[' then
        match skipWs cs1 with
        | ']' :: r => some (Json.arr [], r)
        | cs2 => (parseElems fuel cs2).map (fun p => (Json.arr p.1, p.2))
      else if c = '\x7b' then
        match skipWs cs1 with
        | '\x7d' :: r => some (Json.obj [], r)
        | cs2 => (parseMembers fuel cs2).map (fun p => (Json.obj p.1, p.2))
      else if c = '-' then
        match takeDigits cs1 with
        | ([], _) => none
        | (ds, r) => some (Json.num (-(digitsToNat ds : Int)), r)
      else if isDigitChar c then
        match takeDigits (c :: cs1) with
        | (ds, r) => some (Json.num ((digitsToNat ds : Int)), r)
      else none

/-- Parse a nonempty comma-separated element list followed by `]`. -/
def parseElems : Nat → List Char → Option (List Json × List Char)
  | 0, _ => none
  | fuel + 1, cs =>
    match parseVal fuel cs with
    | none => none
    | some (v, rest) =>
      match skipWs rest with
      | ',' :: r =>
        match parseElems fuel r with
        | none => none
        | some (xs, r2) => some (v :: xs, r2)
      | ']' :: r => some ([v], r)
      | _ => none

/-- Parse a nonempty comma-separated member list followed by the closing
brace. -/
def parseMembers : Nat → List Char → Option (List (String × Json) × List Char)
  | 0, _ => none
  | fuel + 1, cs =>
    match skipWs cs with
    | '"' :: cs1 =>
      match parseStrBody cs1 with
      | none => none
      | some (k, rest1) =>
        match skipWs rest1 with
        | ':' :: rest2 =>
          match parseVal fuel rest2 with
          | none => none
          | some (v, rest3) =>
            match skipWs rest3 with
            | ',' :: r =>
              match parseMembers fuel r with
              | none => none
              | some (ms, r2) => some ((String.mk k, v) :: ms, r2)
            | '\x7d' :: r => some ([(String.mk k, v)], r)
            | _ => none
        | _ => none
    | _ => none

end

/-- Model of `JSON.parse(s)`: the whole input must be one JSON value
surrounded only by whitespace; `none` models the thrown `SyntaxError`. -/
def JSONparse (s : String) : Option Json :=
  match parseVal (s.length + 1) s.data with
  | some (v, rest) => if skipWs rest = [] then some v else none
  | none => none

mutual

/-- Fuel measure of a JSON value: an upper bound on the parser fuel needed
to parse its serialization. -/
def jsize : Json → Nat
  | .null | .bool _ | .num _ | .str _ => 1
  | .arr xs => jsizeL xs + 1
  | .obj ms => jsizeM ms + 1

/-- Fuel measure of an array tail. -/
def jsizeL : List Json → Nat
  | [] => 0
  | x :: xs => jsize x + jsizeL xs + 1

/-- Fuel measure of an object member tail. -/
def jsizeM : List (String × Json) → Nat
  | [] => 0
  | m :: ms => jsize m.2 + jsizeM ms + 1

end

/-- Substring test: `hasLead l p` holds when `p` is an initial run of `l`. -/
def hasLead : List Char → List Char → Bool
  | _, [] => true
  | [], _ :: _ => false
  | c :: cs, p :: ps => c = p && hasLead cs ps

/-- Contiguous-occurrence test over character lists. -/
def hasSub : List Char → List Char → Bool
  | [], p => p.isEmpty
  | c :: cs, p => hasLead (c :: cs) p || hasSub cs p

/-- Model of JavaScript `String.prototype.includes`: does `pat` occur as a
contiguous substring of `s`? -/
def strContains (s pat : String) : Bool := hasSub s.data pat.data

/-- Fixed base URL of the remote Neat Pulse API (`BASE_URL`, line 8). -/
def BASE_URL : String := "https://api.pulse.neat.no/v1"

/-- Client construction input (`PulseClientConfig`, lines 10-13). -/
structure PulseClientConfig where
  apiKey : String
  orgId : String
deriving Repr, DecidableEq

/-- State of a constructed client: the two private fields of
`NeatPulseClient` (lines 15-17). -/
structure NeatPulseClient where
  apiKey : String
  orgId : String
deriving Repr, DecidableEq

/-- Model of the `NeatPulseClient` constructor (lines 19-22): plain field
assignment; no validation of the supplied strings and no network call. -/
def NeatPulseClient.make (config : PulseClientConfig) : NeatPulseClient :=
  { apiKey := config.apiKey, orgId := config.orgId }

/-- Model of the private `headers` getter (lines 24-30). -/
def NeatPulseClient.headers (c : NeatPulseClient) : List (String × String) :=
  [("Authorization", "Bearer " ++ c.apiKey),
   ("Content-Type", "application/json"),
   ("Accept", "application/json")]

/-- Model of the private `url` helper (lines 32-34). -/
def NeatPulseClient.url (c : NeatPulseClient) (path : String) : String :=
  BASE_URL ++ "/orgs/" ++ c.orgId ++ path

/-- HTTP request as handed to `fetch`: the URL plus the `RequestInit`
options built in `request` (method, headers, optional body). -/
structure HttpRequest where
  method : String
  url : String
  headers : List (String × String)
  body : Option String
deriving Repr, DecidableEq

/-- Model of the request-building half of `NeatPulseClient.request`
(lines 41-49): the headers are always attached, and a body, when supplied,
is serialized with `JSON.stringify`; when absent, no payload is attached. -/
def NeatPulseClient.buildRequest (c : NeatPulseClient) (method path : String)
    (body : Option Json) : HttpRequest :=
  { method := method, url := c.url path, headers := c.headers,
    body := body.map Json.stringify }

/-- Remote HTTP response, as observed through the fetch `Response` API.
`contentType = none` models a missing `content-type` header (`get` returns
null); `bodyText = none` models a failure to read the body. -/
structure HttpResponse where
  status : Nat
  contentType : Option String
  bodyText : Option String
deriving Repr, DecidableEq

/-- Model of `Response.ok` of the fetch API: status in the range 200-299. -/
def HttpResponse.ok (r : HttpResponse) : Bool := 200 ≤ r.status && r.status < 300

/-- Decoded response body: a JSON value when the content type declared
JSON, raw text otherwise (the spec's `RemoteResult`). -/
inductive RemoteResult where
  | json (v : Json)
  | text (s : String)
deriving Repr

/-- Decimal rendering of a natural number (JavaScript `String(n)`). -/
def natStr (n : Nat) : String := String.mk (serNat n)

/-- Decimal rendering of an integer (JavaScript `String(i)`). -/
def intStr (i : Int) : String := String.mk (serInt i)

/-- Error message raised on a non-ok status (lines 53-55): the template
literal interpolating method, path, status and body text. -/
def apiErrorMessage (method path : String) (status : Nat) (bodyText : String) : String :=
  "Neat Pulse API " ++ method ++ " " ++ path ++ " returned " ++ natStr status ++ ": " ++ bodyText

/-- Modelled message of the `SyntaxError` thrown by the platform
`JSON.parse` on invalid input.  The exact text is engine specific; the
model keeps the V8 shape, whose fixed part names the parse failure. -/
def parseErrorMessage (input : String) : String :=
  "Unexpected token: " ++ input ++ " is not valid JSON"

/-- Modelled message of an error thrown while reading a response body on
the success path (`res.json()` / `res.text()` rejecting). -/
def bodyReadErrorMessage : String := "body stream unreadable"

/-- Model of the response half of `NeatPulseClient.request` (lines 51-62):
a non-ok status raises the single API error (reading the body tolerates a
failure by substituting the empty string, via `.catch(() => "")`); on
success the content type (defaulted to `""` by `?? ""`) selects JSON
parsing or raw text, and a parse failure propagates as an error. -/
def NeatPulseClient.handleResponse (method path : String) (res : HttpResponse) :
    Except String RemoteResult :=
  if !res.ok then
    Except.error (apiErrorMessage method path res.status (res.bodyText.getD ""))
  else
    let contentType := res.contentType.getD ""
    if strContains contentType "application/json" then
      match res.bodyText with
      | none => Except.error bodyReadErrorMessage
      | some t =>
        match JSONparse t with
        | some v => Except.ok (RemoteResult.json v)
        | none => Except.error (parseErrorMessage t)
    else
      match res.bodyText with
      | none => Except.error bodyReadErrorMessage
      | some t => Except.ok (RemoteResult.text t)

/-- Characters kept verbatim by `application/x-www-form-urlencoded`
serialization (the escaping `URLSearchParams.toString` applies). -/
def formSafe (c : Char) : Bool :=
  c.isAlphanum || c = '*' || c = '-' || c = '.' || c = '_'

/-- UTF-8 bytes of a character, as natural numbers. -/
def utf8Bytes (c : Char) : List Nat :=
  let n := c.toNat
  if n < 128 then [n]
  else if n < 2048 then [192 + n / 64, 128 + n % 64]
  else if n < 65536 then [224 + n / 4096, 128 + (n / 64) % 64, 128 + n % 64]
  else [240 + n / 262144, 128 + (n / 4096) % 64, 128 + (n / 64) % 64, 128 + n % 64]

/-- Uppercase hexadecimal digit character for `d < 16`. -/
def hexCharUpper (d : Nat) : Char :=
  if d < 10 then Char.ofNat (48 + d) else Char.ofNat (55 + d)

/-- Percent-encoding of one byte. -/
def percentByte (b : Nat) : List Char := ['%', hexCharUpper (b / 16), hexCharUpper (b % 16)]

/-- Form-urlencoded serialization of one character. -/
def formEncodeChar (c : Char) : List Char :=
  if formSafe c then [c]
  else if c = ' ' then ['+']
  else ((utf8Bytes c).map percentByte).flatten

/-- Model of `URLSearchParams`' escaping of one name or value. -/
def formEncode (s : String) : String := String.mk ((s.data.map formEncodeChar).flatten)

/-- Model of `URLSearchParams.prototype.set`: replace the value of an
existing key, otherwise append the pair at the end. -/
def uspSet (ps : List (String × String)) (k v : String) : List (String × String) :=
  if ps.any (fun p => p.1 = k) then ps.map (fun p => if p.1 = k then (k, v) else p)
  else ps ++ [(k, v)]

/-- Model of `URLSearchParams.prototype.toString`: `&`-separated
`key=value` pairs, both sides form-urlencoded. -/
def uspToString : List (String × String) → String
  | [] => ""
  | [p] => formEncode p.1 ++ "=" ++ formEncode p.2
  | p :: q :: rest => formEncode p.1 ++ "=" ++ formEncode p.2 ++ "&" ++ uspToString (q :: rest)

/-- Conditional query suffix: the source's template `qs ? "?" + qs : ""`
(JavaScript string truthiness: nonempty). -/
def qsSuffix (qs : String) : String := if qs = "" then "" else "?" ++ qs

/-- Model of `listEndpoints`' path construction (lines 68-73): each optional
filter is set independently, only when defined. -/
def listEndpointsPath (regionId locationId : Option Int) : String :=
  let params : List (String × String) := []
  let params := match regionId with
    | some r => uspSet params "regionId" (intStr r)
    | none => params
  let params := match locationId with
    | some l => uspSet params "locationId" (intStr l)
    | none => params
  "/endpoints" ++ qsSuffix (uspToString params)

/-- Model of `getBulkSensorData`'s path construction (lines 107-112). -/
def getBulkSensorDataPath (regionId locationId : Option Int) : String :=
  let params : List (String × String) := []
  let params := match regionId with
    | some r => uspSet params "regionId" (intStr r)
    | none => params
  let params := match locationId with
    | some l => uspSet params "locationId" (intStr l)
    | none => params
  "/endpoints/sensor" ++ qsSuffix (uspToString params)

/-- Model of `getAuditLogs`' path construction (lines 211-220): `from` and
`to` are required and seeded into the params; the two pagination parameters
are set only when defined; the query string is appended unconditionally. -/
def getAuditLogsPath (fromDate toDate : String) (pageToken : Option String)
    (pageSize : Option Int) : String :=
  let params : List (String × String) := [("from", fromDate), ("to", toDate)]
  let params := match pageToken with
    | some t => uspSet params "pageToken" t
    | none => params
  let params := match pageSize with
    | some n => uspSet params "pageSize" (intStr n)
    | none => params
  "/audit/logs?" ++ uspToString params

/-- Model of `generateBugReport`'s path construction (lines 226-235). -/
def generateBugReportPath (uploadInCallLogs : Option Bool) : String :=
  let params : List (String × String) := []
  let params := match uploadInCallLogs with
    | some b => uspSet params "uploadInCallLogs" (if b then "true" else "false")
    | none => params
  "/endpoints/generate_bug_report" ++ qsSuffix (uspToString params)

/-- Model of the bootstrap guard of the server entry file (lines 314-322):
`!apiKey || !orgId` with both `undefined` and the empty string falsy; a
`true` result means the process prints an error and exits with status 1
before any client is constructed. -/
def bootstrapRefuses (apiKey orgId : Option String) : Bool :=
  (apiKey.getD "" == "") || (orgId.getD "" == "")

/-- Text block of a tool response. -/
structure TextContent where
  type : String
  text : String
deriving Repr, DecidableEq

/-- Uniform tool response envelope (`ToolEnvelope`): `isError = none`
models the field being absent (undefined), `some true` the error marker. -/
structure ToolEnvelope where
  content : List TextContent
  isError : Option Bool
deriving Repr, DecidableEq

/-- Model of the `json` helper (lines 333-337): the success envelope wraps
`JSON.stringify(data, null, 2)`. -/
def json (data : Json) : ToolEnvelope :=
  { content := [{ type := "text", text := data.stringifyPretty }], isError := none }

/-- Model of the `error` helper (lines 339-344). -/
def error (message : String) : ToolEnvelope :=
  { content := [{ type := "text", text := "Error: " ++ message }], isError := some true }

/-- Closed role enumeration of `create_user`/`update_user`. -/
inductive Role where
  | owner
  | admin
deriving Repr, DecidableEq

/-- Registry of the tool operations the adapter registers: one constructor
per `server.tool` call in the source, carrying the declared argument
schema of that tool. -/
inductive ToolCall where
  | list_devices (regionId locationId : Option Int)
  | get_device (id : String)
  | get_device_settings (id : String)
  | apply_device_config (id config : String)
  | reboot_device (id : String)
  | delete_device (id : String)
  | get_device_sensors (id : String)
  | get_all_device_sensors (regionId locationId : Option Int)
  | get_room_sensors (id : String)
  | get_all_room_sensors
  | list_rooms
  | get_room (id : String)
  | create_room (name : String) (locationId : Option Int)
  | update_room (id : String) (name : Option String) (locationId : Option Int)
  | delete_room (id : String)
  | regenerate_room_dec (id : String)
  | list_locations
  | create_location (name : String) (regionId : Option Int)
  | update_location (id : Int) (name : Option String) (regionId : Option Int)
  | delete_location (id : Int)
  | list_regions
  | create_region (name : String)
  | update_region (id : Int) (name : String)
  | delete_region (id : Int)
  | list_users
  | get_user (id : String)
  | create_user (email : String) (role : Option Role) (regionIds : Option (List Int))
  | update_user (id : String) (role : Option Role) (regionIds : Option (List Int))
  | delete_user (id : String)
  | list_profiles
  | get_audit_logs (fromDate toDate : String) (pageToken : Option String) (pageSize : Option Int)
  | generate_bug_report (ids : List String) (uploadInCallLogs : Option Bool)
  | list_room_notes (roomId : String)
  | get_room_note (roomId noteId : String)
  | create_room_note (roomId content : String)
  | delete_room_note (roomId noteId : String)
  | list_all_room_notes

/-- Value handed to the `json` helper on success: the client returns either
a decoded JSON value or raw text, and `JSON.stringify` renders raw text as
a JSON string. -/
def RemoteResult.toJson : RemoteResult → Json
  | .json v => v
  | .text s => .str s

/-- Uniform try/catch body shared verbatim by every tool handler in the
source: `json(data)` on success, `error(e.message)` on a thrown error. -/
def runCatch (outcome : Except String RemoteResult) : ToolEnvelope :=
  match outcome with
  | .ok data => json data.toJson
  | .error m => error m

/-- Model of one tool invocation.  `outcome` is an oracle for the result of
the single client call the handler would make (`Except.error m` models the
client call throwing an error whose message is `m`).  The Bool records
whether the client operation was actually invoked — `false` exactly when an
argument transformation (the `JSON.parse` of a text argument) failed before
the call.  Every handler is a total function into an envelope, mirroring
the per-operation try/catch that never lets an exception escape. -/
def handleTool (tc : ToolCall) (outcome : Except String RemoteResult) : ToolEnvelope × Bool :=
  match tc with
  | .apply_device_config _ config =>
    match JSONparse config with
    | none => (error (parseErrorMessage config), false)
    | some _ => (runCatch outcome, true)
  | .create_room_note _ content =>
    match JSONparse content with
    | none => (error (parseErrorMessage content), false)
    | some _ => (runCatch outcome, true)
  | _ => (runCatch outcome, true)

example : Json.stringify (.obj [("id", .str "abc")]) = "\x7b\"id\":\"abc\"\x7d" := rfl
example : Json.stringifyPretty (.obj [("id", .str "abc")]) = "\x7b\n  \"id\": \"abc\"\n\x7d" := rfl
example : JSONparse "\x7b\"id\":\"abc\"\x7d" = some (.obj [("id", .str "abc")]) := rfl
example : JSONparse "\x7bnot valid json" = none := rfl
example : JSONparse "[1, -25, []]" = some (.arr [.num 1, .num (-25), .arr []]) := rfl
example : JSONparse (Json.stringifyPretty (.arr [.num 10, .obj [("a", .bool true)]])) =
    some (.arr [.num 10, .obj [("a", .bool true)]]) := rfl

/-! Substring facts used by the error-message claims. -/

theorem hasLead_iff (l p : List Char) : hasLead l p = true ↔ ∃ r, l = p ++ r := by
  induction p generalizing l with
  | nil => simp [hasLead]
  | cons x xs ih =>
    cases l with
    | nil => simp [hasLead]
    | cons c cs =>
      simp only [hasLead, Bool.and_eq_true, decide_eq_true_eq, ih, List.cons_append,
        List.cons.injEq]
      constructor
      · rintro ⟨hc, r, hr⟩; exact ⟨r, hc, hr⟩
      · rintro ⟨r, hc, hr⟩; exact ⟨hc, r, hr⟩

theorem hasSub_iff (l p : List Char) : hasSub l p = true ↔ ∃ a b, l = a ++ p ++ b := by
  induction l with
  | nil =>
    simp only [hasSub, List.isEmpty_iff]
    constructor
    · rintro rfl; exact ⟨[], [], rfl⟩
    · rintro ⟨a, b, h⟩
      rcases List.append_eq_nil.mp h.symm with ⟨h1, h2⟩
      exact (List.append_eq_nil.mp h1).2
  | cons c cs ih =>
    simp only [hasSub, Bool.or_eq_true, hasLead_iff, ih]
    constructor
    · rintro (⟨r, hr⟩ | ⟨a, b, hab⟩)
      · exact ⟨[], r, by simp [hr]⟩
      · exact ⟨c :: a, b, by simp [hab]⟩
    · rintro ⟨a, b, hab⟩
      cases a with
      | nil => exact Or.inl ⟨b, by simpa using hab⟩
      | cons a0 as =>
        refine Or.inr ⟨as, b, ?_⟩
        have h2 := hab
        simp only [List.cons_append, List.cons.injEq] at h2
        exact h2.2

theorem strContains_iff (s pat : String) :
    strContains s pat = true ↔ ∃ a b, s.data = a ++ pat.data ++ b := by
  simp [strContains, hasSub_iff]

theorem strContains_of_data (s pat : String) (a b : List Char)
    (h : s.data = a ++ pat.data ++ b) : strContains s pat = true :=
  (strContains_iff s pat).mpr ⟨a, b, h⟩

theorem strContains_middle (a b c : String) : strContains (a ++ b ++ c) b = true :=
  strContains_of_data _ _ a.data c.data (by simp [String.data_append])

/-! Claim theorems for the header, constructor, and error-path claims. -/

/-- Claim C8: every request built by the client, for every method, path and
optional body (so in particular bodyless GET and DELETE requests), carries
exactly three headers: the bearer authorization header derived from the API
key, a JSON content-type header, and a JSON accept header. -/
theorem request_headers_exactly_three (c : NeatPulseClient) (method path : String)
    (body : Option Json) :
    (c.buildRequest method path body).headers =
      [("Authorization", "Bearer " ++ c.apiKey),
       ("Content-Type", "application/json"),
       ("Accept", "application/json")] ∧
    (c.buildRequest method path body).headers.length = 3 :=
  ⟨rfl, rfl⟩

/-- Claim C9 counterexample: constructing the client with empty `apiKey`
and `orgId` succeeds silently — the constructor performs no check, so it
yields an ordinary client (whose authorization header degenerates to
`Bearer ` followed by nothing) instead of failing. -/
theorem constructor_accepts_empty_silently :
    NeatPulseClient.make ⟨"", ""⟩ = ⟨"", ""⟩ ∧
    (NeatPulseClient.make ⟨"", ""⟩).headers =
      [("Authorization", "Bearer "), ("Content-Type", "application/json"),
       ("Accept", "application/json")] :=
  ⟨rfl, rfl⟩

/-- Claim C9 amended: the constructor is plain field assignment — its
result is fully determined by the config fields, with no validation and no
network interaction in the model — and the presence/non-emptiness check
lives in the surrounding bootstrap, which refuses to start exactly when
either environment value is missing or empty. -/
theorem constructor_stores_without_validation (config : PulseClientConfig) :
    NeatPulseClient.make config = ⟨config.apiKey, config.orgId⟩ ∧
    bootstrapRefuses none (some "org-1") = true ∧
    bootstrapRefuses (some "key-1") none = true ∧
    (∀ k o : String, bootstrapRefuses (some k) (some o) = ((k == "") || (o == ""))) :=
  ⟨rfl, rfl, rfl, fun _ _ => rfl⟩

/-- Claim C2: on every response whose status is not a success status, the
client produces exactly one error (the `Except.error` channel of
`handleResponse`), whose message contains the HTTP method, the request
path, the decimal status code, and the response body read as text, a read
failure being tolerated by substituting the empty string. -/
theorem client_error_message_contains (method path : String) (res : HttpResponse)
    (h : res.ok = false) :
    NeatPulseClient.handleResponse method path res =
      Except.error (apiErrorMessage method path res.status (res.bodyText.getD "")) ∧
    strContains (apiErrorMessage method path res.status (res.bodyText.getD "")) method = true ∧
    strContains (apiErrorMessage method path res.status (res.bodyText.getD "")) path = true ∧
    strContains (apiErrorMessage method path res.status (res.bodyText.getD ""))
      (natStr res.status) = true ∧
    strContains (apiErrorMessage method path res.status (res.bodyText.getD ""))
      (res.bodyText.getD "") = true := by
  refine ⟨by simp [NeatPulseClient.handleResponse, h], ?_, ?_, ?_, ?_⟩
  · exact strContains_of_data _ _ "Neat Pulse API ".data
      ((" " ++ path ++ " returned " ++ natStr res.status ++ ": " ++ res.bodyText.getD "").data)
      (by simp [apiErrorMessage, String.data_append])
  · exact strContains_of_data _ _ (("Neat Pulse API " ++ method ++ " ").data)
      ((" returned " ++ natStr res.status ++ ": " ++ res.bodyText.getD "").data)
      (by simp [apiErrorMessage, String.data_append])
  · exact strContains_of_data _ _
      (("Neat Pulse API " ++ method ++ " " ++ path ++ " returned ").data)
      (((": " : String) ++ res.bodyText.getD "").data)
      (by simp [apiErrorMessage, String.data_append])
  · exact strContains_of_data _ _
      (("Neat Pulse API " ++ method ++ " " ++ path ++ " returned " ++ natStr res.status
        ++ ": ").data) []
      (by simp [apiErrorMessage, String.data_append])

/-- Witness for C2: a mocked 404 response with body `not found` — the
error message contains the method, the path, `404` and `not found`. -/
theorem client_error_message_contains_witness :
    HttpResponse.ok ⟨404, some "text/plain", some "not found"⟩ = false ∧
    (NeatPulseClient.handleResponse "GET" "/endpoints" ⟨404, some "text/plain", some "not found"⟩ =
      Except.error (apiErrorMessage "GET" "/endpoints" 404 "not found") ∧
     strContains (apiErrorMessage "GET" "/endpoints" 404 "not found") "GET" = true ∧
     strContains (apiErrorMessage "GET" "/endpoints" 404 "not found") "/endpoints" = true ∧
     strContains (apiErrorMessage "GET" "/endpoints" 404 "not found") "404" = true ∧
     strContains (apiErrorMessage "GET" "/endpoints" 404 "not found") "not found" = true) :=
  ⟨by decide, client_error_message_contains "GET" "/endpoints"
    ⟨404, some "text/plain", some "not found"⟩ (by decide)⟩

/-- Claim C10: a success response with no content-type header at all is
treated as content type empty string, classified as non-JSON, and decoded
as raw body text — no JSON parse is attempted and the call does not fail. -/
theorem no_content_type_returns_text (method path : String) (res : HttpResponse) (t : String)
    (hok : res.ok = true) (hct : res.contentType = none) (hb : res.bodyText = some t) :
    res.contentType.getD "" = "" ∧
    strContains (res.contentType.getD "") "application/json" = false ∧
    NeatPulseClient.handleResponse method path res = Except.ok (RemoteResult.text t) := by
  have hcf : strContains "" "application/json" = false := by decide
  refine ⟨by simp [hct], by simpa [hct] using hcf, ?_⟩
  simp [NeatPulseClient.handleResponse, hok, hct, hb, hcf]

theorem strContains_trans (s mid pat : String) (h1 : strContains s mid = true)
    (h2 : strContains mid pat = true) : strContains s pat = true := by
  rcases (strContains_iff s mid).mp h1 with ⟨a, b, hab⟩
  rcases (strContains_iff mid pat).mp h2 with ⟨c, d, hcd⟩
  refine strContains_of_data _ _ (a ++ c) (d ++ b) ?_
  simp [hab, hcd, List.append_assoc]

/-- Claim C5: on a success response the client's result is determined by
the content-type header and body alone — JSON content types are parsed
into a structured value, any other content type yields the raw body text,
a parse failure on a declared-JSON body propagates as an error of that
call, and the method and path play no role in the success decoding. -/
theorem success_decode_by_content_type (method path : String) (res : HttpResponse) (t : String)
    (hok : res.ok = true) (hb : res.bodyText = some t) :
    (strContains (res.contentType.getD "") "application/json" = true →
       NeatPulseClient.handleResponse method path res =
         (match JSONparse t with
          | some v => Except.ok (RemoteResult.json v)
          | none => Except.error (parseErrorMessage t))) ∧
    (strContains (res.contentType.getD "") "application/json" = true →
       JSONparse t = none →
       NeatPulseClient.handleResponse method path res = Except.error (parseErrorMessage t)) ∧
    (strContains (res.contentType.getD "") "application/json" = false →
       NeatPulseClient.handleResponse method path res = Except.ok (RemoteResult.text t)) ∧
    (∀ method2 path2 : String,
       NeatPulseClient.handleResponse method path res =
         NeatPulseClient.handleResponse method2 path2 res) := by
  refine ⟨fun hj => ?_, fun hj hpf => ?_, fun hj => ?_, fun m2 p2 => ?_⟩
  · simp [NeatPulseClient.handleResponse, hok, hb, hj]
  · simp [NeatPulseClient.handleResponse, hok, hb, hj, hpf]
  · simp [NeatPulseClient.handleResponse, hok, hb, hj]
  · simp [NeatPulseClient.handleResponse, hok]

/-- Witness for C5: a 200 response with a JSON content type and a JSON
body decodes to the parsed structured value. -/
theorem success_decode_by_content_type_witness :
    HttpResponse.ok ⟨200, some "application/json", some "\x7b\"id\":\"abc\"\x7d"⟩ = true ∧
    strContains
      ((⟨200, some "application/json", some "\x7b\"id\":\"abc\"\x7d"⟩ :
        HttpResponse).contentType.getD "") "application/json" = true ∧
    NeatPulseClient.handleResponse "GET" "/endpoints/e1"
      ⟨200, some "application/json", some "\x7b\"id\":\"abc\"\x7d"⟩ =
      Except.ok (RemoteResult.json (Json.obj [("id", Json.str "abc")])) := by
  refine ⟨by decide, by decide, ?_⟩
  have h := (success_decode_by_content_type "GET" "/endpoints/e1"
    ⟨200, some "application/json", some "\x7b\"id\":\"abc\"\x7d"⟩ "\x7b\"id\":\"abc\"\x7d"
    (by decide) rfl).1 (by decide)
  rw [h]
  rfl

theorem runCatch_shape (outcome : Except String RemoteResult) :
    (∃ d, runCatch outcome = json d) ∨ (∃ s, runCatch outcome = error s) := by
  cases outcome with
  | ok d => exact Or.inl ⟨d.toJson, rfl⟩
  | error m => exact Or.inr ⟨m, rfl⟩

theorem error_text_contains (m : String) : strContains ("Error: " ++ m) m = true :=
  strContains_of_data _ _ "Error: ".data [] (by simp [String.data_append])

theorem handleTool_cases (tc : ToolCall) (outcome : Except String RemoteResult) :
    handleTool tc outcome = (runCatch outcome, true) ∨
    ∃ s, JSONparse s = none ∧ handleTool tc outcome = (error (parseErrorMessage s), false) := by
  cases tc with
  | apply_device_config id config =>
    cases h : JSONparse config with
    | none => exact Or.inr ⟨config, h, by simp [handleTool, h]⟩
    | some v => exact Or.inl (by simp [handleTool, h])
  | create_room_note roomId content =>
    cases h : JSONparse content with
    | none => exact Or.inr ⟨content, h, by simp [handleTool, h]⟩
    | some v => exact Or.inl (by simp [handleTool, h])
  | _ => exact Or.inl rfl

/-- Claim C1: every registered tool operation, on every argument assignment
and every outcome of the underlying client call, terminates with a tool
envelope (built by the `json` or the `error` helper — the handler is a
total function, no exception crosses the adapter boundary); and whenever
the underlying client call throws (outcome `Except.error m`) and the
handler reached that call, the result is the error envelope marked
`isError` whose text contains the thrown message. -/
theorem tool_handler_catches_errors (tc : ToolCall) (outcome : Except String RemoteResult)
    (m : String) :
    ((∃ d, (handleTool tc outcome).1 = json d) ∨ (∃ s, (handleTool tc outcome).1 = error s)) ∧
    (outcome = Except.error m → (handleTool tc outcome).2 = true →
      (handleTool tc outcome).1 = error m ∧
      (handleTool tc outcome).1.isError = some true ∧
      ∃ txt, (handleTool tc outcome).1.content = [⟨"text", txt⟩] ∧
        strContains txt m = true) := by
  rcases handleTool_cases tc outcome with h | ⟨s, hs, h⟩
  · constructor
    · rw [h]; exact runCatch_shape outcome
    · intro ho _
      subst ho
      rw [h]
      exact ⟨rfl, rfl, "Error: " ++ m, rfl, error_text_contains m⟩
  · constructor
    · rw [h]; exact Or.inr ⟨_, rfl⟩
    · intro _ hreach
      rw [h] at hreach
      simp at hreach

/-- Witness for C1: the `get_device` handler on a client call throwing
`boom` returns the error envelope containing `boom`. -/
theorem tool_handler_catches_errors_witness :
    (handleTool (ToolCall.get_device "dev-1") (Except.error "boom")).1 = error "boom" ∧
    (handleTool (ToolCall.get_device "dev-1") (Except.error "boom")).1.isError = some true ∧
    ∃ txt, (handleTool (ToolCall.get_device "dev-1") (Except.error "boom")).1.content =
      [⟨"text", txt⟩] ∧ strContains txt "boom" = true :=
  (tool_handler_catches_errors (ToolCall.get_device "dev-1") (Except.error "boom") "boom").2
    rfl rfl

theorem parse_error_text_mentions (input : String) :
    strContains ("Error: " ++ parseErrorMessage input) "not valid JSON" = true := by
  have h1 : strContains ("Error: " ++ parseErrorMessage input) " is not valid JSON" = true :=
    strContains_of_data _ _ ("Error: ".data ++ "Unexpected token: ".data ++ input.data) []
      (by simp [parseErrorMessage, String.data_append, List.append_assoc])
  exact strContains_trans _ _ _ h1 (by decide)

/-- Claim C4: when the `config` argument of `apply_device_config` (or the
`content` argument of `create_room_note`) is not valid JSON text, the
handler returns an error envelope whose text mentions the parse failure,
and the client operation is never invoked (no request is sent). -/
theorem parse_failure_before_forward (id roomId config content : String)
    (outcome : Except String RemoteResult)
    (hc : JSONparse config = none) (hn : JSONparse content = none) :
    ((handleTool (ToolCall.apply_device_config id config) outcome).2 = false ∧
     (handleTool (ToolCall.apply_device_config id config) outcome).1.isError = some true ∧
     ∃ txt, (handleTool (ToolCall.apply_device_config id config) outcome).1.content =
       [⟨"text", txt⟩] ∧ strContains txt "not valid JSON" = true) ∧
    ((handleTool (ToolCall.create_room_note roomId content) outcome).2 = false ∧
     (handleTool (ToolCall.create_room_note roomId content) outcome).1.isError = some true ∧
     ∃ txt, (handleTool (ToolCall.create_room_note roomId content) outcome).1.content =
       [⟨"text", txt⟩] ∧ strContains txt "not valid JSON" = true) := by
  constructor
  · refine ⟨by simp [handleTool, hc], by simp [handleTool, hc, error], ?_⟩
    exact ⟨"Error: " ++ parseErrorMessage config, by simp [handleTool, hc, error],
      parse_error_text_mentions config⟩
  · refine ⟨by simp [handleTool, hn], by simp [handleTool, hn, error], ?_⟩
    exact ⟨"Error: " ++ parseErrorMessage content, by simp [handleTool, hn, error],
      parse_error_text_mentions content⟩

/-- Witness for C4: the literal argument `\x7bnot valid json` fails to
parse, yields an error envelope mentioning the failure, and the client is
not invoked, for both text-argument operations. -/
theorem parse_failure_before_forward_witness :
    JSONparse "\x7bnot valid json" = none ∧
    (((handleTool (ToolCall.apply_device_config "d1" "\x7bnot valid json")
        (Except.ok (RemoteResult.text "unused"))).2 = false ∧
      (handleTool (ToolCall.apply_device_config "d1" "\x7bnot valid json")
        (Except.ok (RemoteResult.text "unused"))).1.isError = some true ∧
      ∃ txt, (handleTool (ToolCall.apply_device_config "d1" "\x7bnot valid json")
        (Except.ok (RemoteResult.text "unused"))).1.content =
        [⟨"text", txt⟩] ∧ strContains txt "not valid JSON" = true) ∧
     ((handleTool (ToolCall.create_room_note "r1" "\x7bnot valid json")
        (Except.ok (RemoteResult.text "unused"))).2 = false ∧
      (handleTool (ToolCall.create_room_note "r1" "\x7bnot valid json")
        (Except.ok (RemoteResult.text "unused"))).1.isError = some true ∧
      ∃ txt, (handleTool (ToolCall.create_room_note "r1" "\x7bnot valid json")
        (Except.ok (RemoteResult.text "unused"))).1.content =
        [⟨"text", txt⟩] ∧ strContains txt "not valid JSON" = true)) :=
  ⟨rfl, parse_failure_before_forward "d1" "r1" "\x7bnot valid json" "\x7bnot valid json"
    (Except.ok (RemoteResult.text "unused")) rfl rfl⟩

/-- Witness for C10: a 200 response carrying a body but no content-type
header decodes to the raw text. -/
theorem no_content_type_returns_text_witness :
    HttpResponse.ok ⟨200, none, some "hello"⟩ = true ∧
    ((⟨200, none, some "hello"⟩ : HttpResponse).contentType.getD "" = "" ∧
     strContains ((⟨200, none, some "hello"⟩ : HttpResponse).contentType.getD "")
       "application/json" = false ∧
     NeatPulseClient.handleResponse "GET" "/rooms" ⟨200, none, some "hello"⟩ =
       Except.ok (RemoteResult.text "hello")) :=
  ⟨by decide, no_content_type_returns_text "GET" "/rooms" ⟨200, none, some "hello"⟩ "hello"
    (by decide) rfl rfl⟩

/-! Query-string construction facts (claim C3). -/

theorem strEq_of_data : ∀ (s t : String), s.data = t.data → s = t
  | ⟨_⟩, ⟨_⟩, rfl => rfl

theorem append_ne_empty_left (a b : String) (h : ¬ a = "") : ¬ (a ++ b = "") := by
  intro he
  have hd := congrArg String.data he
  rw [String.data_append] at hd
  exact h (strEq_of_data a "" (List.append_eq_nil.mp hd).1)

theorem qsSuffix_of_ne (qs : String) (h : ¬ qs = "") : qsSuffix qs = "?" ++ qs := by
  simp [qsSuffix, h]

theorem natChars_all_digits (fuel : Nat) :
    ∀ n c, c ∈ natChars fuel n → ∃ d, d < 10 ∧ c = digitChar d := by
  induction fuel with
  | zero => intro n c hc; cases n <;> simp [natChars] at hc
  | succ f ih =>
    intro n c hc
    cases n with
    | zero => simp [natChars] at hc
    | succ m =>
      rw [natChars] at hc
      rcases List.mem_append.mp hc with h1 | h2
      · exact ih _ c h1
      · simp at h2
        exact ⟨(m + 1) % 10, Nat.mod_lt _ (by norm_num), h2⟩

theorem serNat_all_digits (n : Nat) :
    ∀ c ∈ serNat n, ∃ d, d < 10 ∧ c = digitChar d := by
  intro c hc
  by_cases h : n = 0
  · subst h
    simp [serNat] at hc
    exact ⟨0, by norm_num, by rw [hc]; rfl⟩
  · simp [serNat, h] at hc
    exact natChars_all_digits n n c hc

theorem formSafe_digit : ∀ d, d < 10 → formSafe (digitChar d) = true := by decide

theorem formEncodeChar_safe (c : Char) (h : formSafe c = true) : formEncodeChar c = [c] := by
  simp [formEncodeChar, h]

theorem flatten_formEncode_id (cs : List Char) (h : ∀ c ∈ cs, formSafe c = true) :
    (cs.map formEncodeChar).flatten = cs := by
  induction cs with
  | nil => rfl
  | cons c cs ih =>
    simp only [List.map_cons, List.flatten_cons, formEncodeChar_safe c (h c (by simp))]
    rw [ih (fun x hx => h x (by simp [hx]))]
    rfl

theorem formEncode_intStr (i : Int) : formEncode (intStr i) = intStr i := by
  apply strEq_of_data
  show ((serInt i).map formEncodeChar).flatten = serInt i
  apply flatten_formEncode_id
  intro c hc
  unfold serInt at hc
  by_cases hneg : i < 0
  · simp only [hneg, if_true, List.mem_cons] at hc
    rcases hc with rfl | h2
    · decide
    · rcases serNat_all_digits _ c h2 with ⟨d, hd, rfl⟩
      exact formSafe_digit d hd
  · simp only [hneg, if_false] at hc
    rcases serNat_all_digits _ c hc with ⟨d, hd, rfl⟩
    exact formSafe_digit d hd

/-- Claim C3 counterexample: `getAuditLogs` takes optional pagination
parameters (`pageToken`, `pageSize`), yet supplying none of them still
produces a request with a query string: the required `from`/`to`
parameters are always appended, so the query string is not exactly the
(empty) supplied subset of optional parameters. -/
theorem audit_logs_query_without_optionals :
    getAuditLogsPath "a" "b" none none = "/audit/logs?from=a&to=b" ∧
    getAuditLogsPath "a" "b" none none ≠ "/audit/logs" ∧
    strContains (getAuditLogsPath "a" "b" none none) "?" = true ∧
    strContains (getAuditLogsPath "a" "b" none none) "from=a&to=b" = true := by
  refine ⟨rfl, by decide, by decide, by decide⟩

/-- Claim C3 amended: every optional filter/pagination parameter is
serialized independently and only when supplied; for the operations whose
query parameters are all optional (`listEndpoints`, `getBulkSensorData`,
`generateBugReport`) the query string is exactly the supplied subset and
supplying none yields no query string at all, while `getAuditLogs` always
carries the required `from`/`to` pair followed by exactly the supplied
subset of `pageToken`/`pageSize`. -/
theorem query_string_exact_subset (r l n : Int) (f t tok : String) :
    listEndpointsPath none none = "/endpoints" ∧
    listEndpointsPath (some r) none = "/endpoints" ++ "?" ++ "regionId" ++ "=" ++ intStr r ∧
    listEndpointsPath none (some l) = "/endpoints" ++ "?" ++ "locationId" ++ "=" ++ intStr l ∧
    listEndpointsPath (some r) (some l) =
      "/endpoints" ++ "?" ++ "regionId" ++ "=" ++ intStr r ++ "&" ++
        ("locationId" ++ "=" ++ intStr l) ∧
    getBulkSensorDataPath none none = "/endpoints/sensor" ∧
    getBulkSensorDataPath (some r) none =
      "/endpoints/sensor" ++ "?" ++ "regionId" ++ "=" ++ intStr r ∧
    getBulkSensorDataPath none (some l) =
      "/endpoints/sensor" ++ "?" ++ "locationId" ++ "=" ++ intStr l ∧
    getBulkSensorDataPath (some r) (some l) =
      "/endpoints/sensor" ++ "?" ++ "regionId" ++ "=" ++ intStr r ++ "&" ++
        ("locationId" ++ "=" ++ intStr l) ∧
    generateBugReportPath none = "/endpoints/generate_bug_report" ∧
    generateBugReportPath (some true) =
      "/endpoints/generate_bug_report" ++ "?" ++ "uploadInCallLogs" ++ "=" ++ "true" ∧
    generateBugReportPath (some false) =
      "/endpoints/generate_bug_report" ++ "?" ++ "uploadInCallLogs" ++ "=" ++ "false" ∧
    getAuditLogsPath f t none none =
      "/audit/logs?" ++ "from" ++ "=" ++ formEncode f ++ "&" ++
        ("to" ++ "=" ++ formEncode t) ∧
    getAuditLogsPath f t (some tok) none =
      "/audit/logs?" ++ "from" ++ "=" ++ formEncode f ++ "&" ++
        ("to" ++ "=" ++ formEncode t ++ "&" ++ ("pageToken" ++ "=" ++ formEncode tok)) ∧
    getAuditLogsPath f t none (some n) =
      "/audit/logs?" ++ "from" ++ "=" ++ formEncode f ++ "&" ++
        ("to" ++ "=" ++ formEncode t ++ "&" ++ ("pageSize" ++ "=" ++ intStr n)) ∧
    getAuditLogsPath f t (some tok) (some n) =
      "/audit/logs?" ++ "from" ++ "=" ++ formEncode f ++ "&" ++
        ("to" ++ "=" ++ formEncode t ++ "&" ++
          ("pageToken" ++ "=" ++ formEncode tok ++ "&" ++
            ("pageSize" ++ "=" ++ intStr n))) := by
  refine ⟨rfl, ?_, ?_, ?_, rfl, ?_, ?_, ?_, rfl, rfl, rfl, ?_, ?_, ?_, ?_⟩
  · have h0 : listEndpointsPath (some r) none =
        "/endpoints" ++ qsSuffix ("regionId" ++ "=" ++ formEncode (intStr r)) := rfl
    rw [h0, formEncode_intStr,
      qsSuffix_of_ne _ (append_ne_empty_left _ _ (by decide))]
    exact strEq_of_data _ _ (by simp [String.data_append, List.append_assoc])
  · have h0 : listEndpointsPath none (some l) =
        "/endpoints" ++ qsSuffix ("locationId" ++ "=" ++ formEncode (intStr l)) := rfl
    rw [h0, formEncode_intStr,
      qsSuffix_of_ne _ (append_ne_empty_left _ _ (by decide))]
    exact strEq_of_data _ _ (by simp [String.data_append, List.append_assoc])
  · have h0 : listEndpointsPath (some r) (some l) =
        "/endpoints" ++ qsSuffix ("regionId" ++ "=" ++ formEncode (intStr r) ++ "&" ++
          ("locationId" ++ "=" ++ formEncode (intStr l))) := rfl
    rw [h0, formEncode_intStr, formEncode_intStr,
      qsSuffix_of_ne _ (append_ne_empty_left _ _
        (append_ne_empty_left _ _ (append_ne_empty_left _ _ (by decide))))]
    exact strEq_of_data _ _ (by simp [String.data_append, List.append_assoc])
  · have h0 : getBulkSensorDataPath (some r) none =
        "/endpoints/sensor" ++ qsSuffix ("regionId" ++ "=" ++ formEncode (intStr r)) := rfl
    rw [h0, formEncode_intStr,
      qsSuffix_of_ne _ (append_ne_empty_left _ _ (by decide))]
    exact strEq_of_data _ _ (by simp [String.data_append, List.append_assoc])
  · have h0 : getBulkSensorDataPath none (some l) =
        "/endpoints/sensor" ++ qsSuffix ("locationId" ++ "=" ++ formEncode (intStr l)) := rfl
    rw [h0, formEncode_intStr,
      qsSuffix_of_ne _ (append_ne_empty_left _ _ (by decide))]
    exact strEq_of_data _ _ (by simp [String.data_append, List.append_assoc])
  · have h0 : getBulkSensorDataPath (some r) (some l) =
        "/endpoints/sensor" ++ qsSuffix ("regionId" ++ "=" ++ formEncode (intStr r) ++ "&" ++
          ("locationId" ++ "=" ++ formEncode (intStr l))) := rfl
    rw [h0, formEncode_intStr, formEncode_intStr,
      qsSuffix_of_ne _ (append_ne_empty_left _ _
        (append_ne_empty_left _ _ (append_ne_empty_left _ _ (by decide))))]
    exact strEq_of_data _ _ (by simp [String.data_append, List.append_assoc])
  · have h0 : getAuditLogsPath f t none none =
        "/audit/logs?" ++ ("from" ++ "=" ++ formEncode f ++ "&" ++
          ("to" ++ "=" ++ formEncode t)) := rfl
    rw [h0]
    exact strEq_of_data _ _ (by simp [String.data_append, List.append_assoc])
  · have h0 : getAuditLogsPath f t (some tok) none =
        "/audit/logs?" ++ ("from" ++ "=" ++ formEncode f ++ "&" ++
          ("to" ++ "=" ++ formEncode t ++ "&" ++
            ("pageToken" ++ "=" ++ formEncode tok))) := rfl
    rw [h0]
    exact strEq_of_data _ _ (by simp [String.data_append, List.append_assoc])
  · have h0 : getAuditLogsPath f t none (some n) =
        "/audit/logs?" ++ ("from" ++ "=" ++ formEncode f ++ "&" ++
          ("to" ++ "=" ++ formEncode t ++ "&" ++
            ("pageSize" ++ "=" ++ formEncode (intStr n)))) := rfl
    rw [h0, formEncode_intStr]
    exact strEq_of_data _ _ (by simp [String.data_append, List.append_assoc])
  · have h0 : getAuditLogsPath f t (some tok) (some n) =
        "/audit/logs?" ++ ("from" ++ "=" ++ formEncode f ++ "&" ++
          ("to" ++ "=" ++ formEncode t ++ "&" ++
            ("pageToken" ++ "=" ++ formEncode tok ++ "&" ++
              ("pageSize" ++ "=" ++ formEncode (intStr n))))) := rfl
    rw [h0, formEncode_intStr]
    exact strEq_of_data _ _ (by simp [String.data_append, List.append_assoc])

/-! Round-trip development: `JSONparse` recovers every value produced by
`Json.stringify` and `Json.stringifyPretty` (claims C6 and C7). -/

/-- Whitespace-only character list. -/
def WsOnly (l : List Char) : Prop := ∀ c ∈ l, isWsChar c = true

/-- Start of input that cannot extend a decimal number token. -/
def notDigitStart : List Char → Prop
  | [] => True
  | c :: _ => isDigitChar c = false

theorem wsOnly_nil : WsOnly [] := by intro c hc; cases hc

theorem wsOnly_append (a b : List Char) (ha : WsOnly a) (hb : WsOnly b) :
    WsOnly (a ++ b) := by
  intro c hc
  cases List.mem_append.mp hc with
  | inl h => exact ha c h
  | inr h => exact hb c h

theorem wsOnly_cons (c : Char) (l : List Char) (hc : isWsChar c = true) (hl : WsOnly l) :
    WsOnly (c :: l) := by
  intro x hx
  rcases List.mem_cons.mp hx with rfl | h
  · exact hc
  · exact hl x h

theorem skipWs_ws_append (w cs : List Char) (hw : WsOnly w) :
    skipWs (w ++ cs) = skipWs cs := by
  induction w with
  | nil => rfl
  | cons c t ih =>
    simp only [List.cons_append, skipWs, hw c (by simp), if_true]
    exact ih (fun x hx => hw x (by simp [hx]))

theorem skipWs_not_ws (c : Char) (cs : List Char) (h : isWsChar c = false) :
    skipWs (c :: cs) = c :: cs := by
  simp [skipWs, h]

theorem not_ws_of_digit (c : Char) (h : isDigitChar c = true) : isWsChar c = false := by
  by_contra h2
  simp only [Bool.not_eq_false, isWsChar, Bool.or_eq_true, decide_eq_true_eq] at h2
  rcases h2 with ((rfl | rfl) | rfl) | rfl <;> simp [isDigitChar] at h

theorem isDigitChar_digitChar : ∀ d, d < 10 → isDigitChar (digitChar d) = true := by decide

theorem digitVal_digitChar : ∀ d, d < 10 → digitVal (digitChar d) = d := by decide

theorem serNat_isDigit (n : Nat) : ∀ c ∈ serNat n, isDigitChar c = true := by
  intro c hc
  rcases serNat_all_digits n c hc with ⟨d, hd, rfl⟩
  exact isDigitChar_digitChar d hd

theorem serNat_ne_nil (n : Nat) : serNat n ≠ [] := by
  by_cases h : n = 0
  · subst h; simp [serNat]
  · rcases Nat.exists_eq_succ_of_ne_zero h with ⟨m, rfl⟩
    simp only [serNat, if_neg h]
    rw [natChars]
    simp

theorem takeDigits_append (ds rest : List Char) (h1 : ∀ c ∈ ds, isDigitChar c = true)
    (h2 : notDigitStart rest) : takeDigits (ds ++ rest) = (ds, rest) := by
  induction ds with
  | nil =>
    cases rest with
    | nil => rfl
    | cons c cs =>
      have h2' : isDigitChar c = false := h2
      simp [takeDigits, h2']
  | cons d ds ih =>
    have ih2 := ih (fun x hx => h1 x (by simp [hx]))
    simp only [List.cons_append, takeDigits, h1 d (by simp), if_true, List.append_eq]
    rw [ih2]

theorem natChars_foldl (fuel : Nat) : ∀ n a, n ≤ fuel →
    List.foldl (fun a c => 10 * a + digitVal c) a (natChars fuel n) =
      a * 10 ^ (natChars fuel n).length + n := by
  induction fuel with
  | zero =>
    intro n a hn
    interval_cases n
    simp [natChars]
  | succ f ih =>
    intro n a hn
    cases n with
    | zero => simp [natChars]
    | succ m =>
      rw [natChars]
      rw [List.foldl_append]
      have hdiv : (m + 1) / 10 ≤ f := by omega
      rw [ih _ a hdiv]
      simp only [List.foldl_cons, List.foldl_nil, List.length_append, List.length_cons,
        List.length_nil]
      rw [digitVal_digitChar _ (Nat.mod_lt _ (by norm_num))]
      have hmod := Nat.div_add_mod (m + 1) 10
      rw [pow_succ]
      ring_nf
      omega

theorem digitsToNat_serNat (n : Nat) : digitsToNat (serNat n) = n := by
  by_cases h : n = 0
  · subst h; rfl
  · simp only [serNat, if_neg h, digitsToNat]
    rw [natChars_foldl n n 0 le_rfl]
    simp

theorem strMk_data : ∀ s : String, String.mk s.data = s
  | ⟨_⟩ => rfl

theorem hexVal_hexChar : ∀ d, d < 16 → hexVal (hexChar d) = some d := by decide

theorem psb_close (tail : List Char) : parseStrBody ('"' :: tail) = some ([], tail) := by
  rw [parseStrBody.eq_def]; rfl

theorem psb_esc_quote (tail : List Char) :
    parseStrBody ('\\' :: '"' :: tail) =
      (parseStrBody tail).map (fun p => ('"' :: p.1, p.2)) := by
  rw [parseStrBody.eq_def]; rfl

theorem psb_esc_backslash (tail : List Char) :
    parseStrBody ('\\' :: '\\' :: tail) =
      (parseStrBody tail).map (fun p => ('\\' :: p.1, p.2)) := by
  rw [parseStrBody.eq_def]; rfl

theorem psb_esc_n (tail : List Char) :
    parseStrBody ('\\' :: 'n' :: tail) =
      (parseStrBody tail).map (fun p => ('\n' :: p.1, p.2)) := by
  rw [parseStrBody.eq_def]; rfl

theorem psb_esc_t (tail : List Char) :
    parseStrBody ('\\' :: 't' :: tail) =
      (parseStrBody tail).map (fun p => ('\t' :: p.1, p.2)) := by
  rw [parseStrBody.eq_def]; rfl

theorem psb_esc_r (tail : List Char) :
    parseStrBody ('\\' :: 'r' :: tail) =
      (parseStrBody tail).map (fun p => ('\r' :: p.1, p.2)) := by
  rw [parseStrBody.eq_def]; rfl

theorem psb_esc_b (tail : List Char) :
    parseStrBody ('\\' :: 'b' :: tail) =
      (parseStrBody tail).map (fun p => ('\x08' :: p.1, p.2)) := by
  rw [parseStrBody.eq_def]; rfl

theorem psb_esc_f (tail : List Char) :
    parseStrBody ('\\' :: 'f' :: tail) =
      (parseStrBody tail).map (fun p => ('\x0c' :: p.1, p.2)) := by
  rw [parseStrBody.eq_def]; rfl

theorem psb_other (c : Char) (tail : List Char) (h1 : ¬ c = '"') (h2 : ¬ c = '\\') :
    parseStrBody (c :: tail) = (parseStrBody tail).map (fun p => (c :: p.1, p.2)) := by
  rw [parseStrBody.eq_def]
  simp [h1, h2]

theorem psb_u (x1 x2 x3 x4 : Char) (a b c2 d : Nat) (ha : hexVal x1 = some a)
    (hb : hexVal x2 = some b) (hc : hexVal x3 = some c2) (hd : hexVal x4 = some d)
    (tail : List Char) :
    parseStrBody ('\\' :: 'u' :: x1 :: x2 :: x3 :: x4 :: tail) =
      (parseStrBody tail).map
        (fun p => (Char.ofNat (4096 * a + 256 * b + 16 * c2 + d) :: p.1, p.2)) := by
  rw [parseStrBody.eq_def]
  show (match hexVal x1, hexVal x2, hexVal x3, hexVal x4 with
    | some a1, some b1, some c1, some d1 =>
      (parseStrBody tail).map
        (fun (p : List Char × List Char) =>
          (Char.ofNat (4096 * a1 + 256 * b1 + 16 * c1 + d1) :: p.1, p.2))
    | _, _, _, _ => none) =
    (parseStrBody tail).map
      (fun p => (Char.ofNat (4096 * a + 256 * b + 16 * c2 + d) :: p.1, p.2))
  rw [ha, hb, hc, hd]

theorem parseStrBody_quote (cs rest : List Char) :
    parseStrBody ((cs.map escapeChar).flatten ++ '"' :: rest) = some (cs, rest) := by
  induction cs with
  | nil =>
    simp only [List.map_nil, List.flatten_nil, List.nil_append]
    exact psb_close rest
  | cons c t ih =>
    simp only [List.map_cons, List.flatten_cons, List.append_assoc]
    by_cases h1 : c = '"'
    · subst h1
      rw [show escapeChar '"' = ['\\', '"'] from rfl]
      simp only [List.cons_append, List.nil_append]
      rw [psb_esc_quote, ih]
      rfl
    · by_cases h2 : c = '\\'
      · subst h2
        rw [show escapeChar '\\' = ['\\', '\\'] from rfl]
        simp only [List.cons_append, List.nil_append]
        rw [psb_esc_backslash, ih]
        rfl
      · by_cases h3 : c = '\n'
        · subst h3
          rw [show escapeChar '\n' = ['\\', 'n'] from rfl]
          simp only [List.cons_append, List.nil_append]
          rw [psb_esc_n, ih]
          rfl
        · by_cases h4 : c = '\t'
          · subst h4
            rw [show escapeChar '\t' = ['\\', 't'] from rfl]
            simp only [List.cons_append, List.nil_append]
            rw [psb_esc_t, ih]
            rfl
          · by_cases h5 : c = '\r'
            · subst h5
              rw [show escapeChar '\r' = ['\\', 'r'] from rfl]
              simp only [List.cons_append, List.nil_append]
              rw [psb_esc_r, ih]
              rfl
            · by_cases h6 : c = '\x08'
              · subst h6
                rw [show escapeChar '\x08' = ['\\', 'b'] from rfl]
                simp only [List.cons_append, List.nil_append]
                rw [psb_esc_b, ih]
                rfl
              · by_cases h7 : c = '\x0c'
                · subst h7
                  rw [show escapeChar '\x0c' = ['\\', 'f'] from rfl]
                  simp only [List.cons_append, List.nil_append]
                  rw [psb_esc_f, ih]
                  rfl
                · by_cases h8 : c.toNat < 32
                  · rw [show escapeChar c =
                        ['\\', 'u', '0', '0', hexChar (c.toNat / 16), hexChar (c.toNat % 16)]
                      from by simp [escapeChar, h1, h2, h3, h4, h5, h6, h7, h8]]
                    simp only [List.cons_append, List.nil_append]
                    rw [psb_u '0' '0' (hexChar (c.toNat / 16)) (hexChar (c.toNat % 16))
                      0 0 (c.toNat / 16) (c.toNat % 16) rfl rfl
                      (hexVal_hexChar _ (by omega)) (hexVal_hexChar _ (by omega)), ih]
                    have he : 4096 * 0 + 256 * 0 + 16 * (c.toNat / 16) + c.toNat % 16 =
                        c.toNat := by omega
                    rw [he, Char.ofNat_toNat]
                    rfl
                  · rw [show escapeChar c = [c]
                      from by simp [escapeChar, h1, h2, h3, h4, h5, h6, h7, h8]]
                    simp only [List.singleton_append]
                    rw [psb_other c _ h1 h2, ih]
                    rfl

theorem serNat_head (n : Nat) : ∃ c cs, serNat n = c :: cs ∧ isDigitChar c = true := by
  cases h : serNat n with
  | nil => exact absurd h (serNat_ne_nil n)
  | cons c cs => exact ⟨c, cs, rfl, serNat_isDigit n c (by rw [h]; simp)⟩

theorem digit_not_bracket (c : Char) (h : isDigitChar c = true) :
    isWsChar c = false ∧ c ≠ ']' ∧ c ≠ '\x7d' := by
  refine ⟨not_ws_of_digit c h, ?_, ?_⟩ <;> intro he <;> rw [he] at h <;>
    exact absurd h (by decide)

theorem serVal_head (ind gap : List Char) (v : Json) :
    ∃ c cs, serVal ind gap v = c :: cs ∧ isWsChar c = false ∧ c ≠ ']' ∧ c ≠ '\x7d' := by
  cases v with
  | null =>
    exact ⟨'n', ['u', 'l', 'l'], by rw [serVal.eq_def], by decide, by decide, by decide⟩
  | bool b =>
    cases b with
    | false =>
      exact ⟨'f', ['a', 'l', 's', 'e'], by rw [serVal.eq_def], by decide, by decide, by decide⟩
    | true =>
      exact ⟨'t', ['r', 'u', 'e'], by rw [serVal.eq_def], by decide, by decide, by decide⟩
  | num i =>
    by_cases hneg : i < 0
    · refine ⟨'-', serNat i.natAbs, ?_, by decide, by decide, by decide⟩
      rw [serVal.eq_def]
      simp [serInt, hneg]
    · obtain ⟨c, cs, hser, hd⟩ := serNat_head i.toNat
      obtain ⟨hw, h1, h2⟩ := digit_not_bracket c hd
      refine ⟨c, cs, ?_, hw, h1, h2⟩
      rw [serVal.eq_def]
      simp [serInt, hneg, hser]
  | str s =>
    refine ⟨'"', (s.data.map escapeChar).flatten ++ ['"'], ?_, by decide, by decide, by decide⟩
    rw [serVal.eq_def]
    rfl
  | arr xs =>
    cases xs with
    | nil => exact ⟨'[', [']'], by rw [serVal.eq_def], by decide, by decide, by decide⟩
    | cons x xs =>
      by_cases hg : gap = []
      · refine ⟨'[', serVal (ind ++ gap) gap x ++ serElemsRest (ind ++ gap) ind gap xs, ?_,
          by decide, by decide, by decide⟩
        rw [serVal.eq_def]
        simp [hg]
      · refine ⟨'[', '\n' :: ((ind ++ gap) ++
          (serVal (ind ++ gap) gap x ++ serElemsRest (ind ++ gap) ind gap xs)), ?_,
          by decide, by decide, by decide⟩
        rw [serVal.eq_def]
        simp [hg, List.append_assoc]
  | obj ms =>
    cases ms with
    | nil => exact ⟨'\x7b', ['\x7d'], by rw [serVal.eq_def], by decide, by decide, by decide⟩
    | cons m ms =>
      by_cases hg : gap = []
      · refine ⟨'\x7b', quoteChars m.1.data ++ ([':'] ++
          (serVal (ind ++ gap) gap m.2 ++ serMembersRest (ind ++ gap) ind gap ms)), ?_,
          by decide, by decide, by decide⟩
        rw [serVal.eq_def]
        simp [hg, List.append_assoc]
      · refine ⟨'\x7b', '\n' :: ((ind ++ gap) ++ (quoteChars m.1.data ++ ([':', ' '] ++
          (serVal (ind ++ gap) gap m.2 ++ serMembersRest (ind ++ gap) ind gap ms)))), ?_,
          by decide, by decide, by decide⟩
        rw [serVal.eq_def]
        simp [hg, List.append_assoc]

theorem serElemsRest_head (ind sb gap : List Char) (l : List Json) :
    ∃ c t, serElemsRest ind sb gap l = c :: t ∧ isDigitChar c = false := by
  cases l with
  | nil =>
    by_cases hg : gap = []
    · exact ⟨']', [], by rw [serElemsRest.eq_def]; simp [hg], by decide⟩
    · exact ⟨'\n', sb ++ [']'], by rw [serElemsRest.eq_def]; simp [hg], by decide⟩
  | cons x xs =>
    by_cases hg : gap = []
    · refine ⟨',', serVal ind gap x ++ serElemsRest ind sb gap xs, ?_, by decide⟩
      rw [serElemsRest.eq_def]
      simp [hg, List.append_assoc]
    · refine ⟨',', '\n' :: (ind ++ (serVal ind gap x ++ serElemsRest ind sb gap xs)), ?_,
        by decide⟩
      rw [serElemsRest.eq_def]
      simp [hg, List.append_assoc]

theorem serMembersRest_head (ind sb gap : List Char) (l : List (String × Json)) :
    ∃ c t, serMembersRest ind sb gap l = c :: t ∧ isDigitChar c = false := by
  cases l with
  | nil =>
    by_cases hg : gap = []
    · exact ⟨'\x7d', [], by rw [serMembersRest.eq_def]; simp [hg], by decide⟩
    · exact ⟨'\n', sb ++ ['\x7d'], by rw [serMembersRest.eq_def]; simp [hg], by decide⟩
  | cons m ms =>
    by_cases hg : gap = []
    · refine ⟨',', quoteChars m.1.data ++ ([':'] ++
        (serVal ind gap m.2 ++ serMembersRest ind sb gap ms)), ?_, by decide⟩
      rw [serMembersRest.eq_def]
      simp [hg, List.append_assoc]
    · refine ⟨',', '\n' :: (ind ++ (quoteChars m.1.data ++ ([':', ' '] ++
        (serVal ind gap m.2 ++ serMembersRest ind sb gap ms)))), ?_, by decide⟩
      rw [serMembersRest.eq_def]
      simp [hg, List.append_assoc]

theorem skipWs_ser (ws ind gap : List Char) (v : Json) (rest : List Char) (hws : WsOnly ws) :
    skipWs (ws ++ (serVal ind gap v ++ rest)) = serVal ind gap v ++ rest := by
  obtain ⟨c, cs, hser, hnws, h1, h2⟩ := serVal_head ind gap v
  rw [skipWs_ws_append _ _ hws, hser, List.cons_append, skipWs_not_ws _ _ hnws]

theorem jsize_arr (xs : List Json) : jsize (Json.arr xs) = jsizeL xs + 1 := by
  simp [jsize]

theorem jsize_obj (ms : List (String × Json)) : jsize (Json.obj ms) = jsizeM ms + 1 := by
  simp [jsize]

theorem jsizeL_cons (x : Json) (xs : List Json) :
    jsizeL (x :: xs) = jsize x + jsizeL xs + 1 := by
  simp [jsizeL]

theorem jsizeM_cons (k : String) (v : Json) (ms : List (String × Json)) :
    jsizeM ((k, v) :: ms) = jsize v + jsizeM ms + 1 := by
  simp [jsizeM]

theorem jsize_pos (v : Json) : 1 ≤ jsize v := by
  cases v <;> simp [jsize]

theorem digitsToNat_serNat_neg (i : Int) (h : i < 0) :
    -(digitsToNat (serNat i.natAbs) : Int) = i := by
  rw [digitsToNat_serNat]
  omega

theorem digitsToNat_serNat_nonneg (i : Int) (h : ¬ i < 0) :
    (digitsToNat (serNat i.toNat) : Int) = i := by
  rw [digitsToNat_serNat]
  omega

theorem pv_null (n : Nat) (cs tail : List Char)
    (h : skipWs cs = 'n' :: 'u' :: 'l' :: 'l' :: tail) :
    parseVal (n + 1) cs = some (Json.null, tail) := by
  rw [parseVal.eq_def]
  simp only [h, stripLead, Char.reduceEq, reduceIte, Option.map_some']

theorem pv_true (n : Nat) (cs tail : List Char)
    (h : skipWs cs = 't' :: 'r' :: 'u' :: 'e' :: tail) :
    parseVal (n + 1) cs = some (Json.bool true, tail) := by
  rw [parseVal.eq_def]
  simp only [h, stripLead, Char.reduceEq, reduceIte, Option.map_some']

theorem pv_false (n : Nat) (cs tail : List Char)
    (h : skipWs cs = 'f' :: 'a' :: 'l' :: 's' :: 'e' :: tail) :
    parseVal (n + 1) cs = some (Json.bool false, tail) := by
  rw [parseVal.eq_def]
  simp only [h, stripLead, Char.reduceEq, reduceIte, Option.map_some']

theorem pv_str (n : Nat) (cs tail : List Char) (h : skipWs cs = '"' :: tail) :
    parseVal (n + 1) cs =
      (parseStrBody tail).map (fun p => (Json.str (String.mk p.1), p.2)) := by
  rw [parseVal.eq_def]
  simp only [h, Char.reduceEq, reduceIte]

theorem pv_arr_empty (n : Nat) (cs tail r : List Char) (h : skipWs cs = '[' :: tail)
    (h2 : skipWs tail = ']' :: r) :
    parseVal (n + 1) cs = some (Json.arr [], r) := by
  rw [parseVal.eq_def]
  simp only [h, h2, Char.reduceEq, reduceIte]

theorem pv_arr_cons (n : Nat) (cs tail t0 : List Char) (c0 : Char)
    (h : skipWs cs = '[' :: tail) (h2 : skipWs tail = c0 :: t0) (hne : ¬ c0 = ']') :
    parseVal (n + 1) cs =
      (parseElems n (c0 :: t0)).map (fun p => (Json.arr p.1, p.2)) := by
  rw [parseVal.eq_def]
  simp only [h, h2, Char.reduceEq, reduceIte]
  split
  · next heq =>
    rw [List.cons.injEq] at heq
    exact absurd heq.1 hne
  · rfl

theorem pv_obj_empty (n : Nat) (cs tail r : List Char) (h : skipWs cs = '\x7b' :: tail)
    (h2 : skipWs tail = '\x7d' :: r) :
    parseVal (n + 1) cs = some (Json.obj [], r) := by
  rw [parseVal.eq_def]
  simp only [h, h2, Char.reduceEq, reduceIte]

theorem pv_obj_cons (n : Nat) (cs tail t0 : List Char) (c0 : Char)
    (h : skipWs cs = '\x7b' :: tail) (h2 : skipWs tail = c0 :: t0) (hne : ¬ c0 = '\x7d') :
    parseVal (n + 1) cs =
      (parseMembers n (c0 :: t0)).map (fun p => (Json.obj p.1, p.2)) := by
  rw [parseVal.eq_def]
  simp only [h, h2, Char.reduceEq, reduceIte]
  split
  · next heq =>
    rw [List.cons.injEq] at heq
    exact absurd heq.1 hne
  · rfl

theorem pv_neg (n : Nat) (cs tail ds r : List Char) (d0 : Char)
    (h : skipWs cs = '-' :: tail) (hds : takeDigits tail = (d0 :: ds, r)) :
    parseVal (n + 1) cs = some (Json.num (-(digitsToNat (d0 :: ds) : Int)), r) := by
  rw [parseVal.eq_def]
  simp only [h, hds, Char.reduceEq, reduceIte]

theorem pv_digit (n : Nat) (cs tail ds r : List Char) (c0 : Char)
    (h : skipWs cs = c0 :: tail) (hc : isDigitChar c0 = true)
    (hds : takeDigits (c0 :: tail) = (c0 :: ds, r)) :
    parseVal (n + 1) cs = some (Json.num ((digitsToNat (c0 :: ds) : Int)), r) := by
  have hne : ∀ x : Char, isDigitChar x = false → ¬ c0 = x := by
    intro x hx he
    rw [he, hx] at hc
    cases hc
  rw [parseVal.eq_def]
  simp only [h, if_neg (hne 'n' (by decide)), if_neg (hne 't' (by decide)),
    if_neg (hne 'f' (by decide)), if_neg (hne '"' (by decide)),
    if_neg (hne '[' (by decide)), if_neg (hne '\x7b' (by decide)),
    if_neg (hne '-' (by decide)), hc, if_true, hds]

theorem pe_last (n : Nat) (cs rest' r : List Char) (v : Json)
    (h1 : parseVal n cs = some (v, rest')) (h2 : skipWs rest' = ']' :: r) :
    parseElems (n + 1) cs = some ([v], r) := by
  rw [parseElems.eq_def]
  simp only [h1, h2, Char.reduceEq, reduceIte]

theorem pe_more (n : Nat) (cs rest' r r2 : List Char) (v : Json) (xs : List Json)
    (h1 : parseVal n cs = some (v, rest')) (h2 : skipWs rest' = ',' :: r)
    (h3 : parseElems n r = some (xs, r2)) :
    parseElems (n + 1) cs = some (v :: xs, r2) := by
  rw [parseElems.eq_def]
  simp only [h1, h2, h3, Char.reduceEq, reduceIte]

theorem pm_last (n : Nat) (cs cs1 kc rest1 rest2 rest3 r : List Char) (v : Json)
    (h0 : skipWs cs = '"' :: cs1) (h1 : parseStrBody cs1 = some (kc, rest1))
    (h2 : skipWs rest1 = ':' :: rest2) (h3 : parseVal n rest2 = some (v, rest3))
    (h4 : skipWs rest3 = '\x7d' :: r) :
    parseMembers (n + 1) cs = some ([(String.mk kc, v)], r) := by
  rw [parseMembers.eq_def]
  simp only [h0, h1, h2, h3, h4, Char.reduceEq, reduceIte]

theorem pm_more (n : Nat) (cs cs1 kc rest1 rest2 rest3 r r2 : List Char) (v : Json)
    (ms : List (String × Json))
    (h0 : skipWs cs = '"' :: cs1) (h1 : parseStrBody cs1 = some (kc, rest1))
    (h2 : skipWs rest1 = ':' :: rest2) (h3 : parseVal n rest2 = some (v, rest3))
    (h4 : skipWs rest3 = ',' :: r) (h5 : parseMembers n r = some (ms, r2)) :
    parseMembers (n + 1) cs = some ((String.mk kc, v) :: ms, r2) := by
  rw [parseMembers.eq_def]
  simp only [h0, h1, h2, h3, h4, h5, Char.reduceEq, reduceIte]

theorem parse_ser_aux (N : Nat) :
    (∀ (v : Json) (ind gap ws rest : List Char), WsOnly ind → WsOnly gap → WsOnly ws →
      notDigitStart rest → jsize v ≤ N →
      parseVal N (ws ++ (serVal ind gap v ++ rest)) = some (v, rest)) ∧
    (∀ (x : Json) (xs : List Json) (ind sb gap ws rest : List Char),
      WsOnly ind → WsOnly sb → WsOnly gap → WsOnly ws → notDigitStart rest →
      jsize x + jsizeL xs + 1 ≤ N →
      parseElems N (ws ++ (serVal ind gap x ++ (serElemsRest ind sb gap xs ++ rest))) =
        some (x :: xs, rest)) ∧
    (∀ (k : String) (v : Json) (ms : List (String × Json)) (ind sb gap ws rest : List Char),
      WsOnly ind → WsOnly sb → WsOnly gap → WsOnly ws → notDigitStart rest →
      jsize v + jsizeM ms + 1 ≤ N →
      parseMembers N (ws ++ (quoteChars k.data ++
        ((if gap = [] then [':'] else [':', ' ']) ++
          (serVal ind gap v ++ (serMembersRest ind sb gap ms ++ rest))))) =
        some ((k, v) :: ms, rest)) := by
  induction N with
  | zero =>
    refine ⟨?_, ?_, ?_⟩
    · intro v _ _ _ _ _ _ _ _ hsz
      have := jsize_pos v
      omega
    · intro x _ _ _ _ _ _ _ _ _ _ _ hsz
      have := jsize_pos x
      omega
    · intro _ v _ _ _ _ _ _ _ _ _ _ _ hsz
      have := jsize_pos v
      omega
  | succ n ih =>
    obtain ⟨ih1, ih2, ih3⟩ := ih
    refine ⟨?_, ?_, ?_⟩
    · intro v ind gap ws rest hind hgap hws hrest hsz
      have hskip := skipWs_ser ws ind gap v rest hws
      cases v with
      | null =>
        refine pv_null n _ rest ?_
        rw [hskip, show serVal ind gap Json.null = ['n', 'u', 'l', 'l'] from by
          rw [serVal.eq_def]]
        rfl
      | bool b =>
        cases b with
        | true =>
          refine pv_true n _ rest ?_
          rw [hskip, show serVal ind gap (Json.bool true) = ['t', 'r', 'u', 'e'] from by
            rw [serVal.eq_def]]
          rfl
        | false =>
          refine pv_false n _ rest ?_
          rw [hskip, show serVal ind gap (Json.bool false) = ['f', 'a', 'l', 's', 'e'] from by
            rw [serVal.eq_def]]
          rfl
      | num i =>
        by_cases hneg : i < 0
        · have hser : serVal ind gap (Json.num i) = '-' :: serNat i.natAbs := by
            rw [serVal.eq_def]
            simp [serInt, hneg]
          obtain ⟨d0, ds, hserN, hd0⟩ := serNat_head i.natAbs
          have htd : takeDigits (serNat i.natAbs ++ rest) = (serNat i.natAbs, rest) :=
            takeDigits_append _ _ (serNat_isDigit _) hrest
          rw [hserN, List.cons_append] at htd
          have hh : skipWs (ws ++ (serVal ind gap (Json.num i) ++ rest)) =
              '-' :: (d0 :: (ds ++ rest)) := by
            rw [hskip, hser, hserN]
            rfl
          rw [pv_neg n _ (d0 :: (ds ++ rest)) ds rest d0 hh htd, ← hserN,
            digitsToNat_serNat_neg i hneg]
        · have hser : serVal ind gap (Json.num i) = serNat i.toNat := by
            rw [serVal.eq_def]
            simp [serInt, hneg]
          obtain ⟨d0, ds, hserN, hd0⟩ := serNat_head i.toNat
          have htd : takeDigits (serNat i.toNat ++ rest) = (serNat i.toNat, rest) :=
            takeDigits_append _ _ (serNat_isDigit _) hrest
          rw [hserN, List.cons_append] at htd
          have hh : skipWs (ws ++ (serVal ind gap (Json.num i) ++ rest)) =
              d0 :: (ds ++ rest) := by
            rw [hskip, hser, hserN]
            rfl
          rw [pv_digit n _ (ds ++ rest) ds rest d0 hh hd0 htd, ← hserN,
            digitsToNat_serNat_nonneg i hneg]
      | str s =>
        have hser : serVal ind gap (Json.str s) = quoteChars s.data := by
          rw [serVal.eq_def]
        have hh : skipWs (ws ++ (serVal ind gap (Json.str s) ++ rest)) =
            '"' :: ((s.data.map escapeChar).flatten ++ '"' :: rest) := by
          rw [hskip, hser]
          simp [quoteChars, List.append_assoc]
        rw [pv_str n _ _ hh, parseStrBody_quote, Option.map_some', strMk_data]
      | arr xs =>
        cases xs with
        | nil =>
          refine pv_arr_empty n _ (']' :: rest) rest ?_ ?_
          · rw [hskip, show serVal ind gap (Json.arr []) = ['[', ']'] from by
              rw [serVal.eq_def]]
            rfl
          · exact skipWs_not_ws _ _ (by decide)
        | cons x xs =>
          have hsz' : jsize x + jsizeL xs + 1 ≤ n := by
            rw [jsize_arr, jsizeL_cons] at hsz
            omega
          obtain ⟨c0, t0, hser0, hnws0, hne0, hne0'⟩ := serVal_head (ind ++ gap) gap x
          have hindgap : WsOnly (ind ++ gap) := wsOnly_append _ _ hind hgap
          have hser : serVal ind gap (Json.arr (x :: xs)) =
              (if gap = [] then ['['] else '[' :: '\n' :: (ind ++ gap)) ++
                serVal (ind ++ gap) gap x ++ serElemsRest (ind ++ gap) ind gap xs := by
            rw [serVal.eq_def]
          have he := ih2 x xs (ind ++ gap) ind gap [] rest hindgap hind hgap wsOnly_nil
            hrest hsz'
          rw [List.nil_append, hser0, List.cons_append] at he
          by_cases hg : gap = []
          · have hh : skipWs (ws ++ (serVal ind gap (Json.arr (x :: xs)) ++ rest)) =
                '[' :: (serVal (ind ++ gap) gap x ++
                  (serElemsRest (ind ++ gap) ind gap xs ++ rest)) := by
              rw [hskip, hser]
              simp [hg, List.append_assoc]
            have hh2 : skipWs (serVal (ind ++ gap) gap x ++
                (serElemsRest (ind ++ gap) ind gap xs ++ rest)) =
                c0 :: (t0 ++ (serElemsRest (ind ++ gap) ind gap xs ++ rest)) := by
              rw [hser0, List.cons_append, skipWs_not_ws _ _ hnws0]
            rw [pv_arr_cons n _ _ _ c0 hh hh2 hne0, he]
            rfl
          · have hh : skipWs (ws ++ (serVal ind gap (Json.arr (x :: xs)) ++ rest)) =
                '[' :: ('\n' :: ((ind ++ gap) ++ (serVal (ind ++ gap) gap x ++
                  (serElemsRest (ind ++ gap) ind gap xs ++ rest)))) := by
              rw [hskip, hser]
              simp [hg, List.append_assoc]
            have hh2 : skipWs ('\n' :: ((ind ++ gap) ++ (serVal (ind ++ gap) gap x ++
                (serElemsRest (ind ++ gap) ind gap xs ++ rest)))) =
                c0 :: (t0 ++ (serElemsRest (ind ++ gap) ind gap xs ++ rest)) := by
              rw [show '\n' :: ((ind ++ gap) ++ (serVal (ind ++ gap) gap x ++
                  (serElemsRest (ind ++ gap) ind gap xs ++ rest))) =
                ('\n' :: (ind ++ gap)) ++ (serVal (ind ++ gap) gap x ++
                  (serElemsRest (ind ++ gap) ind gap xs ++ rest)) from rfl]
              rw [skipWs_ws_append _ _ (wsOnly_cons _ _ (by decide) hindgap)]
              rw [hser0, List.cons_append, skipWs_not_ws _ _ hnws0]
            rw [pv_arr_cons n _ _ _ c0 hh hh2 hne0, he]
            rfl
      | obj ms =>
        cases ms with
        | nil =>
          refine pv_obj_empty n _ ('\x7d' :: rest) rest ?_ ?_
          · rw [hskip, show serVal ind gap (Json.obj []) = ['\x7b', '\x7d'] from by
              rw [serVal.eq_def]]
            rfl
          · exact skipWs_not_ws _ _ (by decide)
        | cons m ms' =>
          obtain ⟨k2, v2⟩ := m
          have hsz' : jsize v2 + jsizeM ms' + 1 ≤ n := by
            rw [jsize_obj, jsizeM_cons] at hsz
            omega
          have hindgap : WsOnly (ind ++ gap) := wsOnly_append _ _ hind hgap
          have hser : serVal ind gap (Json.obj ((k2, v2) :: ms')) =
              (if gap = [] then ['\x7b'] else '\x7b' :: '\n' :: (ind ++ gap)) ++
                quoteChars k2.data ++ (if gap = [] then [':'] else [':', ' ']) ++
                serVal (ind ++ gap) gap v2 ++ serMembersRest (ind ++ gap) ind gap ms' := by
            rw [serVal.eq_def]
          have he := ih3 k2 v2 ms' (ind ++ gap) ind gap [] rest hindgap hind hgap wsOnly_nil
            hrest hsz'
          rw [List.nil_append,
            show quoteChars k2.data = '"' :: ((k2.data.map escapeChar).flatten ++ ['"'])
              from rfl, List.cons_append] at he
          by_cases hg : gap = []
          · have hh : skipWs (ws ++ (serVal ind gap (Json.obj ((k2, v2) :: ms')) ++ rest)) =
                '\x7b' :: (quoteChars k2.data ++
                  ((if gap = [] then [':'] else [':', ' ']) ++
                    (serVal (ind ++ gap) gap v2 ++
                      (serMembersRest (ind ++ gap) ind gap ms' ++ rest)))) := by
              rw [hskip, hser]
              simp [hg, List.append_assoc]
            have hh2 : skipWs (quoteChars k2.data ++
                ((if gap = [] then [':'] else [':', ' ']) ++
                  (serVal (ind ++ gap) gap v2 ++
                    (serMembersRest (ind ++ gap) ind gap ms' ++ rest)))) =
                '"' :: (((k2.data.map escapeChar).flatten ++ ['"']) ++
                  ((if gap = [] then [':'] else [':', ' ']) ++
                    (serVal (ind ++ gap) gap v2 ++
                      (serMembersRest (ind ++ gap) ind gap ms' ++ rest)))) := by
              rw [show quoteChars k2.data = '"' :: ((k2.data.map escapeChar).flatten ++ ['"'])
                from rfl, List.cons_append, skipWs_not_ws _ _ (by decide)]
            rw [pv_obj_cons n _ _ _ '"' hh hh2 (by decide), he]
            rfl
          · have hh : skipWs (ws ++ (serVal ind gap (Json.obj ((k2, v2) :: ms')) ++ rest)) =
                '\x7b' :: ('\n' :: ((ind ++ gap) ++ (quoteChars k2.data ++
                  ((if gap = [] then [':'] else [':', ' ']) ++
                    (serVal (ind ++ gap) gap v2 ++
                      (serMembersRest (ind ++ gap) ind gap ms' ++ rest)))))) := by
              rw [hskip, hser]
              simp [hg, List.append_assoc]
            have hh2 : skipWs ('\n' :: ((ind ++ gap) ++ (quoteChars k2.data ++
                ((if gap = [] then [':'] else [':', ' ']) ++
                  (serVal (ind ++ gap) gap v2 ++
                    (serMembersRest (ind ++ gap) ind gap ms' ++ rest)))))) =
                '"' :: (((k2.data.map escapeChar).flatten ++ ['"']) ++
                  ((if gap = [] then [':'] else [':', ' ']) ++
                    (serVal (ind ++ gap) gap v2 ++
                      (serMembersRest (ind ++ gap) ind gap ms' ++ rest)))) := by
              rw [show '\n' :: ((ind ++ gap) ++ (quoteChars k2.data ++
                  ((if gap = [] then [':'] else [':', ' ']) ++
                    (serVal (ind ++ gap) gap v2 ++
                      (serMembersRest (ind ++ gap) ind gap ms' ++ rest))))) =
                ('\n' :: (ind ++ gap)) ++ (quoteChars k2.data ++
                  ((if gap = [] then [':'] else [':', ' ']) ++
                    (serVal (ind ++ gap) gap v2 ++
                      (serMembersRest (ind ++ gap) ind gap ms' ++ rest)))) from rfl]
              rw [skipWs_ws_append _ _ (wsOnly_cons _ _ (by decide) hindgap)]
              rw [show quoteChars k2.data = '"' :: ((k2.data.map escapeChar).flatten ++ ['"'])
                from rfl, List.cons_append, skipWs_not_ws _ _ (by decide)]
            rw [pv_obj_cons n _ _ _ '"' hh hh2 (by decide), he]
            rfl
    · intro x xs ind sb gap ws rest hind hsb hgap hws hrest hsz
      have hszx : jsize x ≤ n := by omega
      have hrest2 : notDigitStart (serElemsRest ind sb gap xs ++ rest) := by
        obtain ⟨c1, t1, he1, hd1⟩ := serElemsRest_head ind sb gap xs
        rw [he1]
        exact hd1
      have h1 := ih1 x ind gap ws (serElemsRest ind sb gap xs ++ rest) hind hgap hws
        hrest2 hszx
      cases xs with
      | nil =>
        by_cases hg : gap = []
        · have he0 : serElemsRest ind sb gap [] = [']'] := by
            rw [serElemsRest.eq_def]
            simp [hg]
          rw [he0, List.singleton_append] at h1 ⊢
          refine pe_last n _ (']' :: rest) rest x h1 ?_
          exact skipWs_not_ws _ _ (by decide)
        · have he0 : serElemsRest ind sb gap [] = '\n' :: (sb ++ [']']) := by
            rw [serElemsRest.eq_def]
            simp [hg]
          rw [he0] at h1 ⊢
          simp only [List.cons_append, List.nil_append, List.append_assoc,
            List.singleton_append] at h1 ⊢
          refine pe_last n _ ('\n' :: (sb ++ (']' :: rest))) rest x h1 ?_
          rw [show '\n' :: (sb ++ (']' :: rest)) = ('\n' :: sb) ++ (']' :: rest) from rfl]
          rw [skipWs_ws_append _ _ (wsOnly_cons _ _ (by decide) hsb)]
          exact skipWs_not_ws _ _ (by decide)
      | cons y ys =>
        have hszy : jsize y + jsizeL ys + 1 ≤ n := by
          rw [jsizeL_cons] at hsz
          have := jsize_pos x
          omega
        by_cases hg : gap = []
        · have he0 : serElemsRest ind sb gap (y :: ys) =
              ',' :: (serVal ind gap y ++ serElemsRest ind sb gap ys) := by
            rw [serElemsRest.eq_def]
            simp [hg, List.append_assoc]
          rw [he0] at h1 ⊢
          simp only [List.cons_append, List.nil_append, List.append_assoc] at h1 ⊢
          refine pe_more n _ _
            (serVal ind gap y ++ (serElemsRest ind sb gap ys ++ rest)) _ x (y :: ys)
            h1 ?_ ?_
          · exact skipWs_not_ws _ _ (by decide)
          · have h3 := ih2 y ys ind sb gap [] rest hind hsb hgap wsOnly_nil hrest hszy
            rwa [List.nil_append] at h3
        · have he0 : serElemsRest ind sb gap (y :: ys) =
              ',' :: ('\n' :: (ind ++ (serVal ind gap y ++ serElemsRest ind sb gap ys))) := by
            rw [serElemsRest.eq_def]
            simp [hg, List.append_assoc]
          rw [he0] at h1 ⊢
          simp only [List.cons_append, List.nil_append, List.append_assoc] at h1 ⊢
          refine pe_more n _ _
            ('\n' :: (ind ++ (serVal ind gap y ++ (serElemsRest ind sb gap ys ++ rest)))) _
            x (y :: ys) h1 ?_ ?_
          · exact skipWs_not_ws _ _ (by decide)
          · have h3 := ih2 y ys ind sb gap ('\n' :: ind) rest hind hsb hgap
              (wsOnly_cons _ _ (by decide) hind) hrest hszy
            rwa [List.cons_append] at h3
    · intro k v ms ind sb gap ws rest hind hsb hgap hws hrest hsz
      have hszv : jsize v ≤ n := by omega
      have hrest2 : notDigitStart (serMembersRest ind sb gap ms ++ rest) := by
        obtain ⟨c1, t1, he1, hd1⟩ := serMembersRest_head ind sb gap ms
        rw [he1]
        exact hd1
      have h0 : skipWs (ws ++ (quoteChars k.data ++
          ((if gap = [] then [':'] else [':', ' ']) ++
            (serVal ind gap v ++ (serMembersRest ind sb gap ms ++ rest))))) =
          '"' :: ((k.data.map escapeChar).flatten ++ '"' ::
            ((if gap = [] then [':'] else [':', ' ']) ++
              (serVal ind gap v ++ (serMembersRest ind sb gap ms ++ rest)))) := by
        rw [skipWs_ws_append _ _ hws,
          show quoteChars k.data = '"' :: ((k.data.map escapeChar).flatten ++ ['"'])
            from rfl, List.cons_append, skipWs_not_ws _ _ (by decide)]
        simp [List.append_assoc]
      have h1 := parseStrBody_quote k.data
        ((if gap = [] then [':'] else [':', ' ']) ++
          (serVal ind gap v ++ (serMembersRest ind sb gap ms ++ rest)))
      have h3 := ih1 v ind gap [] (serMembersRest ind sb gap ms ++ rest) hind hgap
        wsOnly_nil hrest2 hszv
      rw [List.nil_append] at h3
      by_cases hg : gap = []
      · have hcolon : (if gap = [] then [':'] else [':', ' ']) = [':'] := if_pos hg
        rw [hcolon, List.singleton_append] at h0 h1 ⊢
        have h2 : skipWs (':' :: (serVal ind gap v ++
            (serMembersRest ind sb gap ms ++ rest))) =
            ':' :: (serVal ind gap v ++ (serMembersRest ind sb gap ms ++ rest)) :=
          skipWs_not_ws _ _ (by decide)
        cases ms with
        | nil =>
          have hm : serMembersRest ind sb gap [] = ['\x7d'] := by
            rw [serMembersRest.eq_def]
            simp [hg]
          rw [hm, List.singleton_append] at h0 h1 h2 h3 ⊢
          rw [pm_last n _ _ k.data _ _ _ rest v h0 h1 h2 h3
            (skipWs_not_ws _ _ (by decide)), strMk_data]
        | cons m' ms' =>
          obtain ⟨k2, v2⟩ := m'
          have hszm : jsize v2 + jsizeM ms' + 1 ≤ n := by
            rw [jsizeM_cons] at hsz
            have := jsize_pos v
            omega
          have hm : serMembersRest ind sb gap ((k2, v2) :: ms') =
              ',' :: (quoteChars k2.data ++
                (':' :: (serVal ind gap v2 ++ serMembersRest ind sb gap ms'))) := by
            rw [serMembersRest.eq_def]
            simp [hg, List.append_assoc]
          rw [hm] at h0 h1 h2 h3 ⊢
          simp only [List.cons_append, List.nil_append, List.append_assoc]
            at h0 h1 h2 h3 ⊢
          have h5 := ih3 k2 v2 ms' ind sb gap [] rest hind hsb hgap wsOnly_nil hrest hszm
          rw [List.nil_append, hcolon, List.singleton_append] at h5
          rw [pm_more n _ _ k.data _ _ _ _ rest v ((k2, v2) :: ms') h0 h1 h2 h3
            (skipWs_not_ws _ _ (by decide)) h5, strMk_data]
      · have hcolon : (if gap = [] then [':'] else [':', ' ']) = [':', ' '] := if_neg hg
        rw [hcolon] at h0 h1 ⊢
        simp only [List.cons_append, List.nil_append] at h0 h1 ⊢
        have h2 : skipWs (':' :: (' ' :: (serVal ind gap v ++
            (serMembersRest ind sb gap ms ++ rest)))) =
            ':' :: (' ' :: (serVal ind gap v ++ (serMembersRest ind sb gap ms ++ rest))) :=
          skipWs_not_ws _ _ (by decide)
        have h3' := ih1 v ind gap [' '] (serMembersRest ind sb gap ms ++ rest) hind hgap
          (by intro c hc; rcases List.mem_singleton.mp hc with rfl; decide) hrest2 hszv
        rw [List.singleton_append] at h3'
        cases ms with
        | nil =>
          have hm : serMembersRest ind sb gap [] = '\n' :: (sb ++ ['\x7d']) := by
            rw [serMembersRest.eq_def]
            simp [hg]
          rw [hm] at h0 h1 h2 h3' ⊢
          simp only [List.cons_append, List.nil_append, List.append_assoc,
            List.singleton_append] at h0 h1 h2 h3' ⊢
          have h4 : skipWs ('\n' :: (sb ++ ('\x7d' :: rest))) = '\x7d' :: rest := by
            rw [show '\n' :: (sb ++ ('\x7d' :: rest)) = ('\n' :: sb) ++ ('\x7d' :: rest)
              from rfl]
            rw [skipWs_ws_append _ _ (wsOnly_cons _ _ (by decide) hsb)]
            exact skipWs_not_ws _ _ (by decide)
          rw [pm_last n _ _ k.data _ _ _ rest v h0 h1 h2 h3' h4, strMk_data]
        | cons m' ms' =>
          obtain ⟨k2, v2⟩ := m'
          have hszm : jsize v2 + jsizeM ms' + 1 ≤ n := by
            rw [jsizeM_cons] at hsz
            have := jsize_pos v
            omega
          have hm : serMembersRest ind sb gap ((k2, v2) :: ms') =
              ',' :: ('\n' :: (ind ++ (quoteChars k2.data ++
                (':' :: (' ' :: (serVal ind gap v2 ++
                  serMembersRest ind sb gap ms')))))) := by
            rw [serMembersRest.eq_def]
            simp [hg, List.append_assoc]
          rw [hm] at h0 h1 h2 h3' ⊢
          simp only [List.cons_append, List.nil_append, List.append_assoc]
            at h0 h1 h2 h3' ⊢
          have h5 := ih3 k2 v2 ms' ind sb gap ('\n' :: ind) rest hind hsb hgap
            (wsOnly_cons _ _ (by decide) hind) hrest hszm
          rw [List.cons_append, hcolon] at h5
          simp only [List.cons_append, List.nil_append, List.append_assoc] at h5
          rw [pm_more n _ _ k.data _ _ _ _ rest v ((k2, v2) :: ms') h0 h1 h2 h3'
            (skipWs_not_ws _ _ (by decide)) h5, strMk_data]

theorem jsize_le_len (N : Nat) :
    (∀ (v : Json) (ind gap : List Char), jsize v ≤ N →
      jsize v ≤ (serVal ind gap v).length) ∧
    (∀ (xs : List Json) (ind sb gap : List Char), jsizeL xs ≤ N →
      jsizeL xs + 1 ≤ (serElemsRest ind sb gap xs).length) ∧
    (∀ (ms : List (String × Json)) (ind sb gap : List Char), jsizeM ms ≤ N →
      jsizeM ms + 1 ≤ (serMembersRest ind sb gap ms).length) := by
  induction N with
  | zero =>
    refine ⟨?_, ?_, ?_⟩
    · intro v _ _ hsz
      have := jsize_pos v
      omega
    · intro xs ind sb gap hsz
      cases xs with
      | nil =>
        rw [serElemsRest.eq_def]
        by_cases hg : gap = [] <;> simp [hg, jsizeL]
      | cons y ys =>
        rw [jsizeL_cons] at hsz
        have := jsize_pos y
        omega
    · intro ms ind sb gap hsz
      cases ms with
      | nil =>
        rw [serMembersRest.eq_def]
        by_cases hg : gap = [] <;> simp [hg, jsizeM]
      | cons m ms' =>
        obtain ⟨k2, v2⟩ := m
        rw [jsizeM_cons] at hsz
        have := jsize_pos v2
        omega
  | succ n ih =>
    obtain ⟨ihA, ihB, ihC⟩ := ih
    refine ⟨?_, ?_, ?_⟩
    · intro v ind gap hsz
      cases v with
      | null =>
        rw [show serVal ind gap Json.null = ['n', 'u', 'l', 'l'] from by rw [serVal.eq_def]]
        simp [jsize]
      | bool b =>
        cases b with
        | true =>
          rw [show serVal ind gap (Json.bool true) = ['t', 'r', 'u', 'e'] from by
            rw [serVal.eq_def]]
          simp [jsize]
        | false =>
          rw [show serVal ind gap (Json.bool false) = ['f', 'a', 'l', 's', 'e'] from by
            rw [serVal.eq_def]]
          simp [jsize]
      | num i =>
        rw [show serVal ind gap (Json.num i) = serInt i from by rw [serVal.eq_def]]
        have h1 : serInt i ≠ [] := by
          unfold serInt
          by_cases hneg : i < 0 <;> simp [hneg, serNat_ne_nil]
        have h2 : 0 < (serInt i).length := List.length_pos.mpr h1
        simp only [jsize]
        omega
      | str s =>
        rw [show serVal ind gap (Json.str s) = quoteChars s.data from by rw [serVal.eq_def]]
        simp [jsize, quoteChars]
      | arr xs =>
        cases xs with
        | nil =>
          rw [show serVal ind gap (Json.arr []) = ['[', ']'] from by rw [serVal.eq_def]]
          simp [jsize, jsizeL]
        | cons x xs =>
          have hx : jsize x ≤ n := by
            rw [jsize_arr, jsizeL_cons] at hsz
            omega
          have hxs : jsizeL xs ≤ n := by
            rw [jsize_arr, jsizeL_cons] at hsz
            omega
          have hA := ihA x (ind ++ gap) gap hx
          have hB := ihB xs (ind ++ gap) ind gap hxs
          have hop : 1 ≤ (if gap = [] then ['['] else '[' :: '\n' :: (ind ++ gap)).length := by
            by_cases hg : gap = [] <;> simp [hg]
          rw [show serVal ind gap (Json.arr (x :: xs)) =
              (if gap = [] then ['['] else '[' :: '\n' :: (ind ++ gap)) ++
                serVal (ind ++ gap) gap x ++ serElemsRest (ind ++ gap) ind gap xs from by
            rw [serVal.eq_def]]
          rw [jsize_arr, jsizeL_cons]
          simp only [List.length_append]
          omega
      | obj ms =>
        cases ms with
        | nil =>
          rw [show serVal ind gap (Json.obj []) = ['\x7b', '\x7d'] from by rw [serVal.eq_def]]
          simp [jsize, jsizeM]
        | cons m ms' =>
          obtain ⟨k2, v2⟩ := m
          have hv : jsize v2 ≤ n := by
            rw [jsize_obj, jsizeM_cons] at hsz
            omega
          have hms : jsizeM ms' ≤ n := by
            rw [jsize_obj, jsizeM_cons] at hsz
            omega
          have hA := ihA v2 (ind ++ gap) gap hv
          have hC := ihC ms' (ind ++ gap) ind gap hms
          have hop : 1 ≤ (if gap = [] then ['\x7b']
              else '\x7b' :: '\n' :: (ind ++ gap)).length := by
            by_cases hg : gap = [] <;> simp [hg]
          rw [show serVal ind gap (Json.obj ((k2, v2) :: ms')) =
              (if gap = [] then ['\x7b'] else '\x7b' :: '\n' :: (ind ++ gap)) ++
                quoteChars k2.data ++ (if gap = [] then [':'] else [':', ' ']) ++
                serVal (ind ++ gap) gap v2 ++
                serMembersRest (ind ++ gap) ind gap ms' from by
            rw [serVal.eq_def]]
          rw [jsize_obj, jsizeM_cons]
          simp only [List.length_append]
          omega
    · intro xs ind sb gap hsz
      cases xs with
      | nil =>
        rw [serElemsRest.eq_def]
        by_cases hg : gap = [] <;> simp [hg, jsizeL]
      | cons y ys =>
        have hy : jsize y ≤ n := by
          rw [jsizeL_cons] at hsz
          omega
        have hys : jsizeL ys ≤ n := by
          rw [jsizeL_cons] at hsz
          omega
        have hA := ihA y ind gap hy
        have hB := ihB ys ind sb gap hys
        have hsep : 1 ≤ (if gap = [] then [','] else ',' :: '\n' :: ind).length := by
          by_cases hg : gap = [] <;> simp [hg]
        rw [show serElemsRest ind sb gap (y :: ys) =
            (if gap = [] then [','] else ',' :: '\n' :: ind) ++
              serVal ind gap y ++ serElemsRest ind sb gap ys from by
          rw [serElemsRest.eq_def]]
        rw [jsizeL_cons]
        simp only [List.length_append]
        omega
    · intro ms ind sb gap hsz
      cases ms with
      | nil =>
        rw [serMembersRest.eq_def]
        by_cases hg : gap = [] <;> simp [hg, jsizeM]
      | cons m ms' =>
        obtain ⟨k2, v2⟩ := m
        have hv : jsize v2 ≤ n := by
          rw [jsizeM_cons] at hsz
          omega
        have hms : jsizeM ms' ≤ n := by
          rw [jsizeM_cons] at hsz
          omega
        have hA := ihA v2 ind gap hv
        have hC := ihC ms' ind sb gap hms
        have hsep : 1 ≤ (if gap = [] then [','] else ',' :: '\n' :: ind).length := by
          by_cases hg : gap = [] <;> simp [hg]
        rw [show serMembersRest ind sb gap ((k2, v2) :: ms') =
            (if gap = [] then [','] else ',' :: '\n' :: ind) ++
              quoteChars k2.data ++ (if gap = [] then [':'] else [':', ' ']) ++
              serVal ind gap v2 ++ serMembersRest ind sb gap ms' from by
          rw [serMembersRest.eq_def]]
        rw [jsizeM_cons]
        simp only [List.length_append]
        omega

/-- Round trip for compact output: `JSON.parse` recovers every value
serialized by `JSON.stringify(v)`. -/
theorem JSONparse_stringify (v : Json) : JSONparse (Json.stringify v) = some v := by
  have hbound : jsize v ≤ (Json.stringify v).length + 1 := by
    have := (jsize_le_len (jsize v)).1 v [] [] le_rfl
    have hlen : (Json.stringify v).length = (serVal [] [] v).length := rfl
    omega
  have h := (parse_ser_aux ((Json.stringify v).length + 1)).1 v [] [] [] []
    wsOnly_nil wsOnly_nil wsOnly_nil trivial hbound
  rw [List.nil_append, List.append_nil] at h
  have hdata : (Json.stringify v).data = serVal [] [] v := rfl
  simp [JSONparse, hdata, h, skipWs]

/-- Round trip for the pretty-printed output used by the tool adapter:
`JSON.parse` recovers every value serialized by `JSON.stringify(v, null, 2)`. -/
theorem JSONparse_stringifyPretty (v : Json) :
    JSONparse (Json.stringifyPretty v) = some v := by
  have hws2 : WsOnly [' ', ' '] := by
    intro c hc
    rcases List.mem_cons.mp hc with rfl | hc2
    · rfl
    · rcases List.mem_singleton.mp hc2 with rfl
      rfl
  have hbound : jsize v ≤ (Json.stringifyPretty v).length + 1 := by
    have := (jsize_le_len (jsize v)).1 v [] [' ', ' '] le_rfl
    have hlen : (Json.stringifyPretty v).length = (serVal [] [' ', ' '] v).length := rfl
    omega
  have h := (parse_ser_aux ((Json.stringifyPretty v).length + 1)).1 v [] [' ', ' '] [] []
    wsOnly_nil hws2 wsOnly_nil trivial hbound
  rw [List.nil_append, List.append_nil] at h
  have hdata : (Json.stringifyPretty v).data = serVal [] [' ', ' '] v := rfl
  simp [JSONparse, hdata, h, skipWs]

/-- Claim C7: a client operation invoked with a defined body attaches a
payload equal to the `JSON.stringify` serialization of that body, decoding
the payload as JSON reproduces the original argument structure, and an
operation invoked with no body attaches no payload. -/
theorem request_body_roundtrip (c : NeatPulseClient) (method path : String) (b : Json) :
    (c.buildRequest method path (some b)).body = some (Json.stringify b) ∧
    JSONparse (Json.stringify b) = some b ∧
    (c.buildRequest method path none).body = none :=
  ⟨rfl, JSONparse_stringify b, rfl⟩

/-- Claim C6: the success envelope's text is the pretty-printed JSON
serialization of the wrapped value, parsing that text reproduces the
value, and in particular a 200 JSON response with body `(\x7b"id":"abc"\x7d)`
decodes to a structured value whose success envelope's text parses back to
that same object. -/
theorem success_envelope_roundtrip (data : Json) :
    (json data).content = [⟨"text", Json.stringifyPretty data⟩] ∧
    (json data).isError = none ∧
    JSONparse (Json.stringifyPretty data) = some data ∧
    NeatPulseClient.handleResponse "GET" "/endpoints/e1"
      ⟨200, some "application/json", some "\x7b\"id\":\"abc\"\x7d"⟩ =
      Except.ok (RemoteResult.json (Json.obj [("id", Json.str "abc")])) ∧
    JSONparse ((json (Json.obj [("id", Json.str "abc")])).content.headD
      ⟨"text", ""⟩).text = some (Json.obj [("id", Json.str "abc")]) :=
  ⟨rfl, rfl, JSONparse_stringifyPretty data, rfl, rfl⟩
